import Mathlib

/-!
Verification of the Even G2 protocol examples (packet framing, checksums,
varint codec, authentication sequence, notification truncation and text
pagination) against their natural-language specification.

Python byte strings are modelled as `List Nat` whose elements are < 256;
Python text strings are modelled as `List Char`.  Fallible operations
(in Python: exceptions raised by the `bytes` constructor) return `Option`.
-/

set_option maxRecDepth 4000

namespace G2

/-- Model of the Python `bytes([...])` constructor: it succeeds exactly when
every element is in `0..255` (otherwise Python raises `ValueError`). -/
def pyBytes (bs : List Nat) : Option (List Nat) :=
  if ∀ b ∈ bs, b < 256 then some bs else none

/-- One shift round of CRC-16/CCITT, mirroring
`crc = ((crc << 1) ^ 0x1021) if crc & 0x8000 else (crc << 1); crc &= 0xFFFF`
(even_ai.py lines 31-33, identical in teleprompter.py and
notification_trunc.py). -/
def crc16Round (crc : Nat) : Nat :=
  if crc &&& 0x8000 ≠ 0 then ((crc <<< 1) ^^^ 0x1021) &&& 0xFFFF
  else (crc <<< 1) &&& 0xFFFF

/-- `n` iterated CRC-16 shift rounds (the `for _ in range(8)` loop). -/
def crc16Bits : Nat → Nat → Nat
  | 0, crc => crc
  | n + 1, crc => crc16Bits n (crc16Round crc)

/-- `crc16_ccitt` from the source: init `0xFFFF`, per byte
`crc ^= byte << 8` followed by 8 shift rounds. -/
def crc16_ccitt (data : List Nat) : Nat :=
  data.foldl (fun crc b => crc16Bits 8 (crc ^^^ (b <<< 8))) 0xFFFF

/-- `encode_varint` from the source: while `value > 0x7F` emit
`(value & 0x7F) | 0x80` and shift right by 7; finally emit `value & 0x7F`. -/
def encode_varint (v : Nat) : List Nat :=
  if v > 0x7F then ((v &&& 0x7F) ||| 0x80) :: encode_varint (v >>> 7)
  else [v &&& 0x7F]
termination_by v
decreasing_by
  simp only [Nat.shiftRight_eq_div_pow]
  exact Nat.div_lt_self (by omega) (by norm_num)

/-- `build_packet` from notification_trunc.py (even_ai.py and teleprompter.py
build the identical bytes with `total_pkts = pkt_num = 1`):
header `[0xAA, 0x21, seq, len(payload)+2, total_pkts, pkt_num, svc_hi, svc_lo]`
followed by the payload and the CRC-16 of the payload, low byte first.
The header goes through the `bytes` constructor, so the call fails when
`len(payload) + 2 > 255` (or any other header byte is out of range). -/
def build_packet (seq svc_hi svc_lo : Nat) (payload : List Nat)
    (total_pkts pkt_num : Nat) : Option (List Nat) :=
  (pyBytes [0xAA, 0x21, seq, payload.length + 2, total_pkts, pkt_num, svc_hi, svc_lo]).map
    (fun header =>
      header ++ payload ++
        [crc16_ccitt payload &&& 0xFF, (crc16_ccitt payload >>> 8) &&& 0xFF])

/-- Modelled from the spec: the repository only ships the encoder; the spec
(section 4.2) asks for a symmetric LEB128 decoder that fails
(`MalformedVarint`, here `none`) if the byte sequence never terminates
within a maximum of 10 bytes (64-bit safety). -/
def decode_varint_go : List Nat → Nat → Option Nat
  | _, 0 => none
  | [], _ + 1 => none
  | b :: rest, n + 1 =>
    if b &&& 0x80 = 0 then some (b &&& 0x7F)
    else (decode_varint_go rest n).map (fun v => (b &&& 0x7F) ||| (v <<< 7))

/-- Modelled from the spec: standard base-128 varint decoder, least
significant group first, at most 10 bytes. -/
def decode_varint (bs : List Nat) : Option Nat :=
  decode_varint_go bs 10

/-- `add_crc` from teleprompter.py: append `crc16_ccitt(packet[8:])`
little-endian (even_ai.py inlines the same computation per packet). -/
def add_crc (packet : List Nat) : List Nat :=
  packet ++ [crc16_ccitt (packet.drop 8) &&& 0xFF,
    (crc16_ccitt (packet.drop 8) >>> 8) &&& 0xFF]

/-- The fixed 10-byte transaction id used by auth packets 3 and 7. -/
def auth_txid : List Nat :=
  [0xE8, 0xFF, 0xFF, 0xFF, 0xFF, 0xFF, 0xFF, 0xFF, 0xFF, 0x01]

def auth_p1 : List Nat :=
  [0xAA, 0x21, 0x01, 0x0C, 0x01, 0x01, 0x80, 0x00,
   0x08, 0x04, 0x10, 0x0C, 0x1A, 0x04, 0x08, 0x01, 0x10, 0x04]

def auth_p2 : List Nat :=
  [0xAA, 0x21, 0x02, 0x0A, 0x01, 0x01, 0x80, 0x20,
   0x08, 0x05, 0x10, 0x0E, 0x22, 0x02, 0x08, 0x02]

def auth_p4 : List Nat :=
  [0xAA, 0x21, 0x04, 0x0C, 0x01, 0x01, 0x80, 0x00,
   0x08, 0x04, 0x10, 0x10, 0x1A, 0x04, 0x08, 0x01, 0x10, 0x04]

def auth_p5 : List Nat :=
  [0xAA, 0x21, 0x05, 0x0C, 0x01, 0x01, 0x80, 0x00,
   0x08, 0x04, 0x10, 0x11, 0x1A, 0x04, 0x08, 0x01, 0x10, 0x04]

def auth_p6 : List Nat :=
  [0xAA, 0x21, 0x06, 0x0A, 0x01, 0x01, 0x80, 0x20,
   0x08, 0x05, 0x10, 0x12, 0x22, 0x02, 0x08, 0x01]

/-- Payload of auth packet 3: time-sync message embedding the timestamp
varint and the fixed transaction id. -/
def auth_payload3 (ts : Nat) : List Nat :=
  [0x08, 0x80, 0x01, 0x10, 0x0F, 0x82, 0x08, 0x11, 0x08] ++
    encode_varint ts ++ [0x10] ++ auth_txid

/-- Payload of auth packet 7: final time-sync (message index `0x13`). -/
def auth_payload7 (ts : Nat) : List Nat :=
  [0x08, 0x80, 0x01, 0x10, 0x13, 0x82, 0x08, 0x11, 0x08] ++
    encode_varint ts ++ [0x10] ++ auth_txid

/-- `build_auth_packets` from even_ai.py (teleprompter.py builds the same
seven packets): the fixed capability packets 1, 2, 4, 5, 6 and the two
time-sync packets 3 and 7 embedding the timestamp varint and the fixed
transaction id.  The two computed headers go through the `bytes`
constructor, hence the `Option`.  The timestamp is `int(time.time())`,
taken here as a parameter. -/
def build_auth_packets (timestamp : Nat) : Option (List (List Nat)) :=
  (pyBytes [0xAA, 0x21, 0x03, (auth_payload3 timestamp).length + 2,
      0x01, 0x01, 0x80, 0x20]).bind
    (fun h3 =>
      (pyBytes [0xAA, 0x21, 0x07, (auth_payload7 timestamp).length + 2,
          0x01, 0x01, 0x80, 0x20]).map
        (fun h7 =>
          [add_crc auth_p1, add_crc auth_p2,
           add_crc (h3 ++ auth_payload3 timestamp),
           add_crc auth_p4, add_crc auth_p5, add_crc auth_p6,
           add_crc (h7 ++ auth_payload7 timestamp)]))

/-- The 256-entry CRC-32C lookup table, transcribed literal for literal from
notification_trunc.py (the source mixes hex and decimal literals). -/
def CRC32C_TABLE : List Nat := [
  0, 0x1edc6f41, 0x3db8de82, 0x2364b1c3,
  2071051524, 1705890373, 1187603334, 1477774535,
  4142103048, 3896448329, 3411780746, 3582446539,
  2375206668, 2471405645, 2955549070, 2935387855,
  4078607185, 3989238800, 3466741203, 3497929362,
  2288723541, 2528594196, 3050567895, 2869925782,
  0x5f9e159, 0x1b258e18, 0x38413fdb, 0x269d509a,
  2122865757, 1616130844, 1127252703, 1575808414,
  4176042467, 3862247074, 3310454625, 3683510304,
  2207835367, 2638515110, 3189783141, 2700891428,
  0xe0a23eb, 0x10d64caa, 0x33b2fd69, 0x2d6e9228,
  1971035887, 1806168494, 1220755565, 1444884268,
  0xbf3c2b2, 0x152fadf3, 0x364b1c30, 0x28977371,
  1887600566, 1851658487, 1295687988, 1407635061,
  4245731514, 3821852667, 3232261688, 3732146553,
  2254505406, 2562550527, 3151616828, 2768614525,
  4010728583, 4057117638, 3535143429, 3429526852,
  2491376003, 2325941954, 2848440065, 3072053312,
  0x19eda68f, 0x731c9ce, 0x2455780d, 0x3a89174c,
  1654397835, 2084598986, 1596245257, 1106815560,
  0x1c1447d6, 0x2c82897, 0x21ac9954, 0x3f70f615,
  1734736594, 2042205587, 1524442192, 1140935441,
  3942071774, 4096479903, 3612336988, 3381890077,
  2441511130, 2405101467, 2889768536, 3001168153,
  0x17e78564, 0x93bea25, 0x2a5f5be6, 0x348334a7,
  1821784160, 1917474593, 1362028258, 1341295011,
  3775201132, 4292382765, 3703316974, 3261091503,
  2591375976, 2225679657, 2815270122, 3104961451,
  3841793589, 4196495732, 3645227191, 3348738038,
  2676794161, 2169556080, 2721349043, 3169325810,
  0x121e643d, 0xcc20b7c, 0x2fa6babf, 0x317ad5fe,
  1768937785, 2008266360, 1423378363, 1242261754,
  3233928783, 3726489870, 4252567757, 3819267980,
  3148901195, 2775319562, 2248717769, 2564086408,
  0x3622ac47, 0x28fec306, 0xb9a72c5, 0x15461d84,
  1297289539, 1401912834, 1894502337, 1849139328,
  0x33db4d1e, 0x2d07225f, 0xe63939c, 0x10bffcdd,
  1219162138, 1450614619, 1964125848, 1808679385,
  3308795670, 3689175127, 4169197972, 3864823509,
  3192490514, 2694178131, 2213631120, 2636987345,
  0x38288fac, 0x26f4e0ed, 0x590512e, 0x1b4c3e6f,
  1129919144, 1569021417, 2128735274, 1614644075,
  3469473188, 3491207909, 4084411174, 3987686503,
  3048884384, 2875598817, 2281870882, 2531195235,
  3409057021, 3589176252, 4136290943, 3897992510,
  2957224441, 2929706680, 2382067579, 2468812858,
  0x3dd16ef5, 0x230d01b4, 0x69b077, 0x1eb5df36,
  1184945137, 1484569776, 2065173875, 1707369010,
  0x2fcf0ac8, 0x31136589, 0x1277d44a, 0xcabbb0b,
  1421785036, 1247991949, 1762027854, 2010777103,
  3643568320, 3354402689, 3834949186, 4199072003,
  2724056516, 3162612357, 2682590022, 2168028167,
  3704983961, 3255434968, 3782037275, 4289798234,
  2812554397, 3111666652, 2585588255, 2227215710,
  0x2a36eb91, 0x34ea84d0, 0x178e3513, 0x9525a52,
  1363629717, 1335572948, 1828685847, 1914955606,
  3609613099, 3388619882, 3936259497, 4098024168,
  2891443759, 2995487086, 2448371885, 2402508780,
  0x21c52923, 0x3f194662, 0x1c7df7a1, 0x2a198e0,
  1521783847, 1147730790, 1728858789, 2043684324,
  0x243cc87a, 0x3ae0a73b, 0x198416f8, 0x75879b9,
  1598911870, 1100028479, 1660267516, 2083112125,
  3537875570, 3422805299, 4016532720, 4055565233,
  2846756726, 3077726263, 2484523508, 2328542901]

/-- `calc_crc32c` from notification_trunc.py: init 0, per byte
`idx = b ^ ((crc >> 24) & 0xFF); crc = ((crc << 8) & 0xFFFFFFFF) ^ TABLE[idx]`. -/
def calc_crc32c (data : List Nat) : Nat :=
  data.foldl
    (fun crc b =>
      ((crc <<< 8) &&& 0xFFFFFFFF) ^^^
        CRC32C_TABLE.getD (b ^^^ ((crc >>> 24) &&& 0xFF)) 0)
    0

/-- Modelled from the spec: one shift round of the reference bitwise
non-reflected (MSB-first) CRC-32C, polynomial `0x1EDC6F41`: shift left,
conditionally XOR the polynomial when the top bit was set, mask to 32 bits. -/
def crc32cRound (c : Nat) : Nat :=
  if c.testBit 31 then ((c <<< 1) ^^^ 0x1EDC6F41) &&& 0xFFFFFFFF
  else (c <<< 1) &&& 0xFFFFFFFF

/-- `n` iterated CRC-32C shift rounds. -/
def crc32cBits : Nat → Nat → Nat
  | 0, c => c
  | n + 1, c => crc32cBits n (crc32cRound c)

/-- Modelled from the spec: the reference bitwise CRC-32C (init 0,
non-reflected): per byte XOR into the top byte, then 8 shift rounds. -/
def crc32c_ref (data : List Nat) : Nat :=
  data.foldl (fun c b => crc32cBits 8 (c ^^^ (b <<< 24))) 0

/-- `calc_file_check_fields` from notification_trunc.py:
`(len(data)*256, (crc32c << 8) & 0xFFFFFFFF, (crc32c >> 24) & 0xFF)`. -/
def calc_file_check_fields (data : List Nat) : Nat × Nat × Nat :=
  (data.length * 256, (calc_crc32c data <<< 8) &&& 0xFFFFFFFF,
    (calc_crc32c data >>> 24) &&& 0xFF)

/-! ### Teleprompter text formatting (teleprompter.py `format_text`).
Python strings are modelled as `List Char`. -/

/-- Python's `str` whitespace predicate (as used by `split()` and `strip()`):
ASCII whitespace, the C1/Unicode space code points included by CPython. -/
def isPySpace (c : Char) : Bool :=
  decide ((0x09 ≤ c.toNat ∧ c.toNat ≤ 0x0D) ∨ (0x1C ≤ c.toNat ∧ c.toNat ≤ 0x1F) ∨
    c.toNat = 0x20 ∨ c.toNat = 0x85 ∨ c.toNat = 0xA0 ∨ c.toNat = 0x1680 ∨
    (0x2000 ≤ c.toNat ∧ c.toNat ≤ 0x200A) ∨ c.toNat = 0x2028 ∨ c.toNat = 0x2029 ∨
    c.toNat = 0x202F ∨ c.toNat = 0x205F ∨ c.toNat = 0x3000)

/-- Accumulator form of Python `str.split()` (split on whitespace runs,
dropping empty pieces): `cur` is the word currently being read. -/
def pyWordsAux (cur : List Char) : List Char → List (List Char)
  | [] => if cur.isEmpty then [] else [cur]
  | c :: rest =>
    if isPySpace c then
      if cur.isEmpty then pyWordsAux [] rest else cur :: pyWordsAux [] rest
    else pyWordsAux (cur ++ [c]) rest

/-- Python `line.split()`: the whitespace-separated words of a string. -/
def pyWords (s : List Char) : List (List Char) :=
  pyWordsAux [] s

/-- Python `s.strip()`: remove leading and trailing whitespace. -/
def pyStrip (s : List Char) : List Char :=
  ((s.dropWhile isPySpace).reverse.dropWhile isPySpace).reverse

/-- Python `text.replace("\\n", "\n")`: left-to-right, non-overlapping
replacement of the two-character escape by a newline. -/
def pyReplaceEsc : List Char → List Char
  | '\\' :: 'n' :: rest => '\n' :: pyReplaceEsc rest
  | c :: rest => c :: pyReplaceEsc rest
  | [] => []

/-- Python `text.split("\n")`: split at every newline, keeping empties. -/
def pySplitNl : List Char → List (List Char)
  | [] => [[]]
  | c :: rest =>
    if c = '\n' then [] :: pySplitNl rest
    else
      match pySplitNl rest with
      | [] => [[c]]
      | r :: rs => (c :: r) :: rs

/-- Python `sep.join(pieces)`. -/
def pyJoin (sep : List Char) : List (List Char) → List Char
  | [] => []
  | [l] => l
  | l :: l2 :: rest => l ++ sep ++ pyJoin sep (l2 :: rest)

/-- One step of the greedy word-wrap loop of `format_text`: state is
`(wrapped_lines_so_far, current)`; mirrors
`if len(current) + len(word) + 1 > chars_per_line: ... else current += word + " "`. -/
def wrapStep (cpl : Nat) (st : List (List Char) × List Char)
    (word : List Char) : List (List Char) × List Char :=
  if st.2.length + word.length + 1 > cpl then
    (if st.2.isEmpty then st.1 else st.1 ++ [pyStrip st.2], word ++ [' '])
  else (st.1, st.2 ++ word ++ [' '])

/-- Wrapping of one source line: fold the greedy step over the words, then
append `current.strip()` if it is nonempty. -/
def wrapLine (cpl : Nat) (line : List Char) : List (List Char) :=
  let st := (pyWords line).foldl (wrapStep cpl) ([], [])
  if (pyStrip st.2).isEmpty then st.1 else st.1 ++ [pyStrip st.2]

/-- The wrapped-lines list of `format_text` before padding: each source line
contributes `[""]` if it is blank, otherwise its greedy wrap. -/
def wrapText (cpl : Nat) (text : List Char) : List (List Char) :=
  ((pySplitNl text).map
    (fun line => if (pyStrip line).isEmpty then [([] : List Char)]
      else wrapLine cpl line)).flatten

/-- `if not wrapped: wrapped = [text]` from the source (dead in practice,
kept for fidelity). -/
def wrappedOf (cpl : Nat) (text : List Char) : List (List Char) :=
  let w := wrapText cpl text
  if w.isEmpty then [text] else w

/-- Fuel-indexed form of the page-chunking loop of `format_text`: one page of
`lpp` lines (padded with `" "`) is emitted per iteration.  The fuel only
bounds the iteration count; `paginate` supplies `ls.length`, which is enough
whenever `0 < lpp`. -/
def paginateF : Nat → Nat → List (List Char) → List (List (List Char))
  | _, _, [] => []
  | 0, _, _ :: _ => []
  | fuel + 1, lpp, l :: rest =>
    ((l :: rest).take lpp ++ List.replicate (lpp - (l :: rest).length) [' ']) ::
      paginateF fuel lpp ((l :: rest).drop lpp)

/-- The page-chunking loop of `format_text`: groups lines `lines_per_page`
at a time, padding the final page with `" "` lines.  With
`lines_per_page = 0` and a nonempty list the Python loop never terminates;
this embedding stops after `ls.length` iterations there, and every theorem
about pagination assumes `0 < lines_per_page`. -/
def paginate (lpp : Nat) (ls : List (List Char)) : List (List (List Char)) :=
  paginateF ls.length lpp ls

/-- `page_text = "\n".join(page_lines) + " \n"` from the source. -/
def renderPage (lines : List (List Char)) : List Char :=
  pyJoin ['\n'] lines ++ [' ', '\n']

/-- An all-blank page (`[" "] * lines_per_page`). -/
def blankPage (lpp : Nat) : List (List Char) :=
  List.replicate lpp [' ']

/-- `format_text` (teleprompter.py, `max_text_bytes = None` path), at the
granularity of pages as line lists: replace escaped newlines, wrap, pad the
line list to `lines_per_page`, chunk into pages, and pad the page list to
a minimum of 14 pages. -/
def format_text_lines (text : List Char) (cpl lpp : Nat) :
    List (List (List Char)) :=
  let wrapped := wrappedOf cpl (pyReplaceEsc text)
  let padded := wrapped ++ List.replicate (lpp - wrapped.length) [' ']
  let pages := paginate lpp padded
  pages ++ List.replicate (14 - pages.length) (blankPage lpp)

/-- `format_text` with pages rendered to strings, as the source returns. -/
def format_text (text : List Char) (cpl lpp : Nat) : List (List Char) :=
  (format_text_lines text cpl lpp).map renderPage

/-- UTF-8 size in bytes of one scalar value. -/
def utf8Size (c : Char) : Nat :=
  if c.toNat < 0x80 then 1
  else if c.toNat < 0x800 then 2
  else if c.toNat < 0x10000 then 3
  else 4

/-- Length in bytes of the UTF-8 encoding of a string. -/
def utf8Len (s : List Char) : Nat :=
  (s.map utf8Size).sum

/-- One pass of the inner `for k in range(len(page_lines)-1, -1, -1)` loop
of the byte-budget enforcement: drop the last character of the last line
whose length exceeds 1; if there is none, the page is left unchanged.
Stated on the reversed list. -/
def truncPassAux : List (List Char) → Option (List (List Char))
  | [] => none
  | l :: rest =>
    if l.length > 1 then some (l.dropLast :: rest)
    else (truncPassAux rest).map (l :: ·)

/-- The inner truncation pass on a page in source order. -/
def truncPass (ls : List (List Char)) : List (List Char) :=
  match truncPassAux ls.reverse with
  | some r => r.reverse
  | none => ls

/-- `len(("\n" + page_text).encode("utf-8"))` from the source. -/
def pageBytes (page_lines : List (List Char)) : Nat :=
  utf8Len ('\n' :: renderPage page_lines)

/-- The byte-budget `while` loop of `format_text`
(`while len(page_bytes) > max_text_bytes and page_lines:`), with explicit
fuel: `none` means the loop is still running after `fuel` iterations.  The
Python loop has no other exit and raises nothing. -/
def shrinkLoop : Nat → Nat → List (List Char) → Option (List (List Char))
  | fuel, budget, lines =>
    if pageBytes lines ≤ budget ∨ lines = [] then some lines
    else
      match fuel with
      | 0 => none
      | n + 1 => shrinkLoop n budget (truncPass lines)

/-! ### Notification JSON (notification_trunc.py) -/

/-- Lowercase hexadecimal digit, as produced by Python's `json` escapes. -/
def hexDigit (n : Nat) : Char :=
  if n < 10 then Char.ofNat (48 + n) else Char.ofNat (87 + n)

/-- Four lowercase hex digits of a code unit (for `\uXXXX` escapes). -/
def hex4 (n : Nat) : List Char :=
  [hexDigit (n / 4096 % 16), hexDigit (n / 256 % 16),
   hexDigit (n / 16 % 16), hexDigit (n % 16)]

/-- Python `json.dumps` escaping of one character (`ensure_ascii=True`,
the default): short escapes for quote, backslash and the C0 controls that
have them, `\uXXXX` (with a surrogate pair beyond the BMP) for every other
character outside `0x20..0x7E`. -/
def jsonEscapeChar (c : Char) : List Char :=
  if c = '"' then ['\\', '"']
  else if c = '\\' then ['\\', '\\']
  else if c = '\n' then ['\\', 'n']
  else if c = '\t' then ['\\', 't']
  else if c = '\r' then ['\\', 'r']
  else if c.toNat = 8 then ['\\', 'b']
  else if c.toNat = 12 then ['\\', 'f']
  else if 0x20 ≤ c.toNat ∧ c.toNat ≤ 0x7E then [c]
  else if c.toNat < 0x10000 then '\\' :: 'u' :: hex4 c.toNat
  else ('\\' :: 'u' :: hex4 (0xD800 + (c.toNat - 0x10000) / 0x400)) ++
    ('\\' :: 'u' :: hex4 (0xDC00 + (c.toNat - 0x10000) % 0x400))

/-- `json.dumps` escaping of a whole string body. -/
def jsonEscape (s : List Char) : List Char :=
  (s.map jsonEscapeChar).flatten

/-- A serialized JSON string: quote, escaped body, quote. -/
def jsonStr (s : List Char) : List Char :=
  '"' :: jsonEscape s ++ ['"']

/-- Decimal digits of a natural number (Python `str(n)` for `n ≥ 0`). -/
def decDigits (n : Nat) : List Char :=
  if n < 10 then [Char.ofNat (48 + n)]
  else decDigits (n / 10) ++ [Char.ofNat (48 + n % 10)]
termination_by n
decreasing_by
  exact Nat.div_lt_self (by omega) (by norm_num)

/-- The exact output of `make_json` in `build_notification_json`
(notification_trunc.py lines 200-214): `json.dumps` of the fixed dict with
`separators=(',', ':')`, insertion order preserved.  `ts` is
`int(time.time())` and `date` the `strftime("%Y%m%dT%H%M%S")` string, both
taken as parameters. -/
def make_json (ts : Nat) (date app_id display_name t s m : List Char) :
    List Char :=
  ("\x7b\"android_notification\":\x7b\"msg_id\":").toList ++
    decDigits (10000 + ts % 10000) ++
  (",\"action\":0,\"app_identifier\":").toList ++ jsonStr app_id ++
  (",\"title\":").toList ++ jsonStr t ++
  (",\"subtitle\":").toList ++ jsonStr s ++
  (",\"message\":").toList ++ jsonStr m ++
  (",\"time_s\":").toList ++ decDigits ts ++
  (",\"date\":").toList ++ jsonStr date ++
  (",\"display_name\":").toList ++ jsonStr display_name ++
  ("\x7d\x7d").toList

/-- Python slicing `text[:n]` with a possibly negative bound. -/
def pySliceTo (s : List Char) (n : Int) : List Char :=
  if 0 ≤ n then s.take n.toNat else s.take (s.length - (-n).toNat)

/-- `truncate_field` from notification_trunc.py: keep the text if it fits,
cut hard when at most 3 characters are allowed, otherwise cut and append a
3-character ellipsis. -/
def truncate_field (text : List Char) (max_chars : Int) : List Char :=
  if (text.length : Int) ≤ max_chars then text
  else if max_chars ≤ 3 then pySliceTo text max_chars
  else pySliceTo text (max_chars - 3) ++ ("...").toList

/-- `build_notification_json` from notification_trunc.py: serialize with
full content; if over budget compute the overhead of the empty-field
serialization and truncate with priority message, then subtitle, then
title.  Returns the serialized payload and the was-truncated flag. -/
def build_notification_json (ts : Nat) (date : List Char)
    (title subtitle message : List Char)
    (app_id display_name : List Char) (max_size : Nat) : List Char × Bool :=
  let full := make_json ts date app_id display_name title subtitle message
  if utf8Len full ≤ max_size then (full, false)
  else
    let overhead := utf8Len (make_json ts date app_id display_name [] [] [])
    let available : Int := (max_size : Int) - (overhead : Int)
    if (title.length : Int) + (subtitle.length : Int) > available then
      if (title.length : Int) + 3 > available then
        (make_json ts date app_id display_name
          (truncate_field title available) [] [], true)
      else
        (make_json ts date app_id display_name title
          (truncate_field subtitle (available - (title.length : Int))) [],
          true)
    else
      (make_json ts date app_id display_name title subtitle
        (truncate_field message
          (max 0 (available - (title.length : Int) - (subtitle.length : Int)))),
        true)

/-- A character that `json.dumps` copies verbatim and UTF-8 encodes in one
byte: printable ASCII other than quote and backslash. -/
@[reducible] def plainChar (c : Char) : Prop :=
  0x20 ≤ c.toNat ∧ c.toNat ≤ 0x7E ∧ c ≠ '"' ∧ c ≠ '\\'

/-- The `current` accumulator of the wrap loop when it holds the word group
`ws`: each word followed by one space (`current += word + " "`). -/
def spaced (ws : List (List Char)) : List Char :=
  (ws.map (fun w => w ++ [' '])).flatten

/-- A word as produced by `split()`: nonempty and whitespace-free. -/
def goodWord (w : List Char) : Prop :=
  w ≠ [] ∧ ∀ c ∈ w, isPySpace c = false

/-- Shape of every line emitted by the greedy wrap: a nonempty group of
words joined by single spaces, within the width unless it is one single
(overlong) word. -/
def lineOK (cpl : Nat) (l : List Char) : Prop :=
  ∃ ws, ws ≠ [] ∧ (∀ w ∈ ws, goodWord w) ∧ l = pyJoin [' '] ws ∧
    (l.length ≤ cpl ∨ ∃ w, ws = [w])

end G2

namespace G2

/-! ## Helper lemmas (all definitions are above this line) -/

lemma crc16Round_lt (crc : Nat) : crc16Round crc < 65536 := by
  unfold crc16Round
  split <;> exact Nat.lt_succ_of_le (Nat.and_le_right)

lemma crc16Bits_lt (n crc : Nat) (h : crc < 65536) : crc16Bits n crc < 65536 := by
  induction n generalizing crc with
  | zero => exact h
  | succ n ih => exact ih _ (crc16Round_lt crc)

lemma crc16Bits8_lt (crc : Nat) : crc16Bits 8 crc < 65536 := by
  show crc16Bits 7 (crc16Round crc) < 65536
  exact crc16Bits_lt 7 _ (crc16Round_lt crc)

/-- The running CRC-16 value always fits in 16 bits. -/
lemma crc16_ccitt_lt (data : List Nat) : crc16_ccitt data < 65536 := by
  unfold crc16_ccitt
  generalize hv : (0xFFFF : Nat) = init
  have hinit : init < 65536 := by omega
  clear hv
  induction data generalizing init with
  | nil => simpa using hinit
  | cons b rest ih =>
    simp only [List.foldl_cons]
    exact ih _ (crc16Bits8_lt _)

lemma and_255_eq_mod (n : Nat) : n &&& 0xFF = n % 256 := by
  have h := Nat.and_pow_two_sub_one_eq_mod n 8
  norm_num at h ⊢
  exact h

lemma shiftRight8_eq_div (n : Nat) : n >>> 8 = n / 256 := by
  have h := Nat.shiftRight_eq_div_pow n 8
  norm_num at h ⊢
  exact h

lemma build_packet_some (seq hi lo tot idx : Nat) (payload : List Nat)
    (hseq : seq < 256) (hhi : hi < 256) (hlo : lo < 256)
    (htot : tot < 256) (hidx : idx < 256) (hlen : payload.length + 2 ≤ 255) :
    build_packet seq hi lo payload tot idx =
      some ([0xAA, 0x21, seq, payload.length + 2, tot, idx, hi, lo] ++ payload ++
        [crc16_ccitt payload % 256, crc16_ccitt payload / 256 % 256]) := by
  unfold build_packet pyBytes
  rw [if_pos]
  · simp only [Option.map_some']
    rw [and_255_eq_mod, and_255_eq_mod, shiftRight8_eq_div]
  · intro b hb
    simp only [List.mem_cons, List.not_mem_nil, or_false] at hb
    rcases hb with h | h | h | h | h | h | h | h <;> omega

lemma encode_varint_eq_cons {v : Nat} (h : 0x7F < v) :
    encode_varint v = ((v &&& 0x7F) ||| 0x80) :: encode_varint (v >>> 7) := by
  rw [encode_varint]
  simp [h]

lemma encode_varint_eq_single {v : Nat} (h : ¬ 0x7F < v) :
    encode_varint v = [v &&& 0x7F] := by
  rw [encode_varint]
  simp [h]

lemma encode_varint_ne_nil (v : Nat) : encode_varint v ≠ [] := by
  by_cases h : 0x7F < v
  · rw [encode_varint_eq_cons h]
    simp
  · rw [encode_varint_eq_single h]
    simp

lemma shiftRight7_eq_div (v : Nat) : v >>> 7 = v / 128 := by
  have h := Nat.shiftRight_eq_div_pow v 7
  norm_num at h ⊢
  exact h

lemma shiftRight7_lt {v : Nat} (h : 0x7F < v) : v >>> 7 < v := by
  rw [shiftRight7_eq_div]
  exact Nat.div_lt_self (by omega) (by norm_num)

lemma and_127_lt (x : Nat) : x &&& 0x7F < 0x80 :=
  Nat.lt_succ_of_le Nat.and_le_right

lemma and_127_of_lt {v : Nat} (h : v < 0x80) : v &&& 0x7F = v := by
  have h2 : v < 2 ^ 7 := by norm_num; omega
  have := Nat.and_pow_two_sub_one_of_lt_two_pow h2
  norm_num at this
  exact this

lemma and_127_and_128 (x : Nat) : (x &&& 0x7F) &&& 0x80 = 0 := by
  rw [Nat.and_assoc, show ((0x7F : Nat) &&& 0x80) = 0 from rfl]
  simp

lemma or_128_and_128 (x : Nat) : (x ||| 0x80) &&& 0x80 = 0x80 := by
  apply Nat.eq_of_testBit_eq
  intro i
  simp only [Nat.testBit_and, Nat.testBit_or]
  cases h : Nat.testBit 0x80 i <;> simp

lemma or_128_and_127 (x : Nat) : ((x &&& 0x7F) ||| 0x80) &&& 0x7F = x &&& 0x7F := by
  apply Nat.eq_of_testBit_eq
  intro i
  simp only [Nat.testBit_and, Nat.testBit_or]
  rw [show (0x7F : Nat) = 2 ^ 7 - 1 by norm_num,
    show (0x80 : Nat) = 2 ^ 7 by norm_num,
    Nat.testBit_two_pow_sub_one, Nat.testBit_two_pow]
  by_cases h : i < 7
  · simp [h, show ¬ (7 = i) by omega]
  · simp [h]

lemma lowbits_or_shift (v : Nat) : (v &&& 0x7F) ||| ((v >>> 7) <<< 7) = v := by
  apply Nat.eq_of_testBit_eq
  intro i
  simp only [Nat.testBit_or, Nat.testBit_and, Nat.testBit_shiftLeft,
    Nat.testBit_shiftRight]
  rw [show (0x7F : Nat) = 2 ^ 7 - 1 by norm_num, Nat.testBit_two_pow_sub_one]
  by_cases h : i < 7
  · simp [h, show ¬ 7 ≤ i by omega]
  · have h7 : 7 ≤ i := by omega
    simp [h, h7, show 7 + (i - 7) = i by omega]

lemma encode_varint_getLastD (v : Nat) : ∀ d, (encode_varint v).getLastD d < 0x80 := by
  induction v using Nat.strong_induction_on with
  | _ v ih =>
    intro d
    by_cases h : 0x7F < v
    · rw [encode_varint_eq_cons h, List.getLastD_cons]
      exact ih _ (shiftRight7_lt h) _
    · rw [encode_varint_eq_single h]
      simpa using and_127_lt v

lemma encode_varint_cont (v : Nat) :
    ∀ i, i + 1 < (encode_varint v).length →
      ((encode_varint v).getD i 0) &&& 0x80 = 0x80 := by
  induction v using Nat.strong_induction_on with
  | _ v ih =>
    intro i hi
    by_cases h : 0x7F < v
    · rw [encode_varint_eq_cons h] at hi ⊢
      match i with
      | 0 => exact or_128_and_128 _
      | j + 1 =>
        simp only [List.getD_cons_succ]
        simp only [List.length_cons] at hi
        exact ih _ (shiftRight7_lt h) j (by omega)
    · rw [encode_varint_eq_single h] at hi
      simp at hi

lemma decode_go_encode (v : Nat) :
    ∀ n, (encode_varint v).length ≤ n →
      decode_varint_go (encode_varint v) n = some v := by
  induction v using Nat.strong_induction_on with
  | _ v ih =>
    intro n hn
    by_cases h : 0x7F < v
    · rw [encode_varint_eq_cons h] at hn ⊢
      simp only [List.length_cons] at hn
      match n, hn with
      | m + 1, hn =>
        unfold decode_varint_go
        rw [if_neg (by rw [or_128_and_128]; norm_num)]
        rw [ih _ (shiftRight7_lt h) m (by omega)]
        simp only [Option.map_some']
        rw [or_128_and_127, lowbits_or_shift]
    · rw [encode_varint_eq_single h] at hn ⊢
      simp only [List.length_singleton] at hn
      match n, hn with
      | m + 1, _ =>
        unfold decode_varint_go
        rw [if_pos (and_127_and_128 v)]
        rw [Nat.and_assoc, show ((0x7F : Nat) &&& 0x7F) = 0x7F from rfl]
        rw [@and_127_of_lt v (by omega)]

lemma decode_go_nil (n : Nat) : decode_varint_go [] n = none := by
  match n with
  | 0 => rfl
  | _ + 1 => rfl

lemma decode_go_lt (bs : List Nat) :
    ∀ n v, decode_varint_go bs n = some v → v < 2 ^ (7 * bs.length) := by
  induction bs with
  | nil =>
    intro n v hv
    rw [decode_go_nil] at hv
    exact absurd hv (by simp)
  | cons b rest ihr =>
    intro n v hv
    match n with
    | 0 => exact absurd hv (by simp [decode_varint_go])
    | m + 1 =>
      unfold decode_varint_go at hv
      by_cases hb : b &&& 0x80 = 0
      · rw [if_pos hb] at hv
        have hvv : v = b &&& 0x7F := by
          simpa using hv.symm
        have h1 : v < 2 ^ 7 := by
          rw [hvv]
          exact and_127_lt b
        calc v < 2 ^ 7 := h1
          _ ≤ 2 ^ (7 * (b :: rest).length) := by
            apply Nat.pow_le_pow_right (by norm_num)
            simp only [List.length_cons]
            omega
      · rw [if_neg hb] at hv
        match hgo : decode_varint_go rest m with
        | none => rw [hgo] at hv; exact absurd hv (by simp)
        | some v2 =>
          rw [hgo] at hv
          simp only [Option.map_some'] at hv
          have hv2 := ihr m v2 hgo
          have hvv : v = (b &&& 0x7F) ||| (v2 <<< 7) := by
            simpa using hv.symm
          rw [hvv]
          simp only [List.length_cons]
          apply Nat.or_lt_two_pow
          · calc b &&& 0x7F < 2 ^ 7 := and_127_lt b
              _ ≤ 2 ^ (7 * (rest.length + 1)) := by
                apply Nat.pow_le_pow_right (by norm_num)
                omega
          · rw [Nat.shiftLeft_eq]
            calc v2 * 2 ^ 7 < 2 ^ (7 * rest.length) * 2 ^ 7 :=
                (Nat.mul_lt_mul_right (Nat.two_pow_pos 7)).mpr hv2
              _ = 2 ^ (7 * (rest.length + 1)) := by
                rw [← Nat.pow_add]
                ring_nf

lemma encode_varint_length_le (k : Nat) :
    ∀ v, v < 2 ^ (7 * k) → 0 < k → (encode_varint v).length ≤ k := by
  induction k with
  | zero => omega
  | succ k ihk =>
    intro v hv _
    by_cases h : 0x7F < v
    · rw [encode_varint_eq_cons h]
      simp only [List.length_cons]
      have hk : 0 < k := by
        by_contra hk0
        have : k = 0 := by omega
        subst this
        norm_num at hv
        omega
      have hdiv : v >>> 7 < 2 ^ (7 * k) := by
        rw [shiftRight7_eq_div]
        rw [Nat.div_lt_iff_lt_mul (by norm_num)]
        calc v < 2 ^ (7 * (k + 1)) := hv
          _ = 2 ^ (7 * k) * 128 := by
            rw [show 7 * (k + 1) = 7 * k + 7 by ring, Nat.pow_add]
      have := ihk _ hdiv hk
      omega
    · rw [encode_varint_eq_single h]
      simp only [List.length_singleton]
      omega

lemma encode_varint_lower (v : Nat) :
    2 ≤ (encode_varint v).length →
      2 ^ (7 * ((encode_varint v).length - 1)) ≤ v := by
  induction v using Nat.strong_induction_on with
  | _ v ih =>
    intro hlen
    by_cases h : 0x7F < v
    · rw [encode_varint_eq_cons h] at hlen ⊢
      simp only [List.length_cons] at hlen ⊢
      set L := (encode_varint (v >>> 7)).length with hL
      have hL1 : 1 ≤ L := by
        have := encode_varint_ne_nil (v >>> 7)
        rw [hL]
        cases henc : encode_varint (v >>> 7) with
        | nil => exact absurd henc this
        | cons a l => simp
      simp only [Nat.add_sub_cancel]
      by_cases hL2 : 2 ≤ L
      · have hlow := ih _ (shiftRight7_lt h) hL2
        rw [← hL] at hlow
        have hdivle : (v / 128) * 128 ≤ v := Nat.div_mul_le_self v 128
        rw [shiftRight7_eq_div] at hlow
        calc 2 ^ (7 * L) = 2 ^ (7 * (L - 1)) * 2 ^ 7 := by
              rw [← Nat.pow_add]
              congr 1
              omega
          _ ≤ (v / 128) * 128 := by
              apply Nat.mul_le_mul hlow
              norm_num
          _ ≤ v := hdivle
      · have : L = 1 := by omega
        rw [this]
        norm_num
        omega
    · rw [encode_varint_eq_single h] at hlen
      simp at hlen


lemma pyBytes_of_lt {bs : List Nat} (h : ∀ b ∈ bs, b < 256) : pyBytes bs = some bs :=
  if_pos h

lemma encode_varint_length_le_ten {v : Nat} (h : v < 2 ^ 64) :
    (encode_varint v).length ≤ 10 :=
  encode_varint_length_le 10 v (lt_of_lt_of_le h (by norm_num)) (by norm_num)

lemma encode_varint_all_lt (v : Nat) : ∀ b ∈ encode_varint v, b < 256 := by
  induction v using Nat.strong_induction_on with
  | _ v ih =>
    intro b hb
    by_cases h : 0x7F < v
    · rw [encode_varint_eq_cons h] at hb
      rcases List.mem_cons.mp hb with hb | hb
      · subst hb
        have h1 : v &&& 0x7F < 2 ^ 8 := lt_trans (and_127_lt v) (by norm_num)
        have h2 := Nat.or_lt_two_pow h1 (show (0x80 : Nat) < 2 ^ 8 by norm_num)
        norm_num at h2
        omega
      · exact ih _ (shiftRight7_lt h) b hb
    · rw [encode_varint_eq_single h] at hb
      simp at hb
      subst hb
      have := and_127_lt v
      omega


lemma xor_shiftLeft_distrib (x y n : Nat) :
    (x ^^^ y) <<< n = (x <<< n) ^^^ (y <<< n) := by
  apply Nat.eq_of_testBit_eq
  intro i
  simp only [Nat.testBit_shiftLeft, Nat.testBit_xor]
  cases h : decide (n ≤ i) <;> simp

lemma xor_xor_cancel (a b p : Nat) : (a ^^^ p) ^^^ (b ^^^ p) = a ^^^ b := by
  rw [Nat.xor_comm b p, ← Nat.xor_assoc, Nat.xor_assoc a p p, Nat.xor_self,
    Nat.xor_zero]

lemma crc32cRound_true {c : Nat} (h : c.testBit 31 = true) :
    crc32cRound c = ((c <<< 1) ^^^ 0x1EDC6F41) &&& 0xFFFFFFFF := by
  unfold crc32cRound
  rw [if_pos h]

lemma crc32cRound_false {c : Nat} (h : c.testBit 31 = false) :
    crc32cRound c = (c <<< 1) &&& 0xFFFFFFFF := by
  unfold crc32cRound
  rw [if_neg (by simp [h])]

lemma crc32cRound_xor (x y : Nat) :
    crc32cRound (x ^^^ y) = crc32cRound x ^^^ crc32cRound y := by
  have hxy : (x ^^^ y).testBit 31 = ((x.testBit 31) ^^ (y.testBit 31)) :=
    Nat.testBit_xor x y 31
  cases hx : x.testBit 31 <;> cases hy : y.testBit 31 <;>
    rw [hx, hy] at hxy <;> simp only [Bool.xor_false, Bool.xor_true,
      Bool.false_xor, Bool.true_xor, Bool.not_true, Bool.not_false] at hxy
  · rw [crc32cRound_false hxy, crc32cRound_false hx, crc32cRound_false hy,
      ← Nat.and_xor_distrib_right, xor_shiftLeft_distrib]
  · rw [crc32cRound_true hxy, crc32cRound_false hx, crc32cRound_true hy,
      ← Nat.and_xor_distrib_right, xor_shiftLeft_distrib, Nat.xor_assoc]
  · rw [crc32cRound_true hxy, crc32cRound_true hx, crc32cRound_false hy,
      ← Nat.and_xor_distrib_right, xor_shiftLeft_distrib, Nat.xor_assoc,
      Nat.xor_assoc, Nat.xor_comm 0x1EDC6F41 (y <<< 1)]
  · rw [crc32cRound_false hxy, crc32cRound_true hx, crc32cRound_true hy,
      ← Nat.and_xor_distrib_right, xor_xor_cancel, xor_shiftLeft_distrib]

lemma crc32cBits_xor (n x y : Nat) :
    crc32cBits n (x ^^^ y) = crc32cBits n x ^^^ crc32cBits n y := by
  induction n generalizing x y with
  | zero => rfl
  | succ n ih =>
    simp only [show ∀ c, crc32cBits (n + 1) c = crc32cBits n (crc32cRound c)
      from fun c => rfl]
    rw [crc32cRound_xor, ih]

lemma crc32cRound_lt (c : Nat) : crc32cRound c < 2 ^ 32 := by
  unfold crc32cRound
  have hM : (0xFFFFFFFF : Nat) = 2 ^ 32 - 1 := by norm_num
  split <;> rw [hM] <;>
    exact Nat.lt_of_le_of_lt Nat.and_le_right (by norm_num)

lemma crc32cBits_lt (n c : Nat) (h : c < 2 ^ 32) : crc32cBits n c < 2 ^ 32 := by
  induction n generalizing c with
  | zero => exact h
  | succ n ih => exact ih _ (crc32cRound_lt c)

lemma crc32cBits8_lt (c : Nat) : crc32cBits 8 c < 2 ^ 32 := by
  show crc32cBits 7 (crc32cRound c) < 2 ^ 32
  exact crc32cBits_lt 7 _ (crc32cRound_lt c)

lemma shiftLeft_lt_of_lt {a m : Nat} (k : Nat) (h : a < 2 ^ m) :
    a <<< k < 2 ^ (m + k) := by
  rw [Nat.shiftLeft_eq, Nat.pow_add]
  exact Nat.mul_lt_mul_of_lt_of_le h (Nat.le_refl _) (Nat.two_pow_pos k)

lemma crc32cRound_of_small {c : Nat} (h : c < 2 ^ 31) :
    crc32cRound c = c <<< 1 := by
  unfold crc32cRound
  rw [if_neg (by simp [Nat.testBit_lt_two_pow h])]
  have h1 : c <<< 1 < 2 ^ 32 := shiftLeft_lt_of_lt 1 h
  rw [show (0xFFFFFFFF : Nat) = 2 ^ 32 - 1 by norm_num]
  exact Nat.and_pow_two_sub_one_of_lt_two_pow h1

lemma crc32cBits_of_small :
    ∀ k c m, c < 2 ^ m → m + k ≤ 32 → crc32cBits k c = c <<< k := by
  intro k
  induction k with
  | zero => intro c m _ _; rw [Nat.shiftLeft_zero]; rfl
  | succ k ih =>
    intro c m hc hm
    have hc31 : c < 2 ^ 31 :=
      Nat.lt_of_lt_of_le hc (Nat.pow_le_pow_right (by norm_num) (by omega))
    rw [show crc32cBits (k + 1) c = crc32cBits k (crc32cRound c) from rfl,
      crc32cRound_of_small hc31,
      ih (c <<< 1) (m + 1) (shiftLeft_lt_of_lt 1 hc) (by omega),
      ← Nat.shiftLeft_add, Nat.add_comm 1 k]

lemma high_low_split (c : Nat) :
    ((c >>> 24) <<< 24) ^^^ (c &&& 0xFFFFFF) = c := by
  apply Nat.eq_of_testBit_eq
  intro i
  simp only [Nat.testBit_xor, Nat.testBit_shiftLeft, Nat.testBit_shiftRight,
    Nat.testBit_and]
  rw [show (0xFFFFFF : Nat) = 2 ^ 24 - 1 by norm_num,
    Nat.testBit_two_pow_sub_one]
  by_cases h : i < 24
  · simp [show ¬ 24 ≤ i by omega, h]
  · simp [show 24 ≤ i by omega, h, show 24 + (i - 24) = i by omega]

lemma shiftRight24_lt {c : Nat} (h : c < 2 ^ 32) : c >>> 24 < 2 ^ 8 := by
  rw [Nat.shiftRight_eq_div_pow]
  rw [Nat.div_lt_iff_lt_mul (Nat.two_pow_pos 24)]
  calc c < 2 ^ 32 := h
    _ = 2 ^ 8 * 2 ^ 24 := by norm_num

lemma shiftLeft8_masked {c : Nat} :
    (c <<< 8) &&& 0xFFFFFFFF = (c &&& 0xFFFFFF) <<< 8 := by
  conv_lhs => rw [← high_low_split c]
  rw [xor_shiftLeft_distrib, Nat.shiftLeft_shiftLeft, Nat.and_xor_distrib_right]
  have h1 : ((c >>> 24) <<< 32) &&& 0xFFFFFFFF = 0 := by
    rw [show (0xFFFFFFFF : Nat) = 2 ^ 32 - 1 by norm_num,
      Nat.and_pow_two_sub_one_eq_mod, Nat.shiftLeft_eq, Nat.mul_mod_left]
  have h2 : ((c &&& 0xFFFFFF) <<< 8) &&& 0xFFFFFFFF = (c &&& 0xFFFFFF) <<< 8 := by
    rw [show (0xFFFFFFFF : Nat) = 2 ^ 32 - 1 by norm_num]
    apply Nat.and_pow_two_sub_one_of_lt_two_pow
    have : c &&& 0xFFFFFF < 2 ^ 24 := by
      rw [show (0xFFFFFF : Nat) = 2 ^ 24 - 1 by norm_num]
      exact Nat.lt_of_le_of_lt Nat.and_le_right (by norm_num)
    exact shiftLeft_lt_of_lt 8 this
  rw [h1, h2, Nat.zero_xor]

lemma and_mask24_lt (c : Nat) : c &&& 0xFFFFFF < 2 ^ 24 := by
  rw [show (0xFFFFFF : Nat) = 2 ^ 24 - 1 by norm_num]
  exact Nat.lt_of_le_of_lt Nat.and_le_right (by norm_num)

/-- The transcription of the source lookup table agrees entry by entry with
the table generated from the reference bitwise CRC-32C rounds. -/
lemma crc32c_table_eq :
    CRC32C_TABLE = (List.range 256).map (fun i => crc32cBits 8 (i <<< 24)) := by
  decide

lemma crc32c_table_getD {i : Nat} (h : i < 256) :
    CRC32C_TABLE.getD i 0 = crc32cBits 8 (i <<< 24) := by
  rw [crc32c_table_eq, List.getD_eq_getElem?_getD, List.getElem?_map,
    List.getElem?_range h]
  rfl

/-- Per-byte agreement of the table-driven step with eight reference rounds. -/
lemma crc32c_step_eq {c b : Nat} (hc : c < 2 ^ 32) (hb : b < 256) :
    ((c <<< 8) &&& 0xFFFFFFFF) ^^^
        CRC32C_TABLE.getD (b ^^^ ((c >>> 24) &&& 0xFF)) 0 =
      crc32cBits 8 (c ^^^ (b <<< 24)) := by
  have hhi : c >>> 24 < 2 ^ 8 := shiftRight24_lt hc
  have hhi255 : (c >>> 24) &&& 0xFF = c >>> 24 := by
    rw [show (0xFF : Nat) = 2 ^ 8 - 1 by norm_num]
    exact Nat.and_pow_two_sub_one_of_lt_two_pow hhi
  have hidx : b ^^^ (c >>> 24) < 256 := by
    have hb8 : b < 2 ^ 8 := by omega
    have h2 := Nat.xor_lt_two_pow hb8 hhi
    omega
  have hsplit : c ^^^ (b <<< 24) =
      (((c >>> 24) ^^^ b) <<< 24) ^^^ (c &&& 0xFFFFFF) := by
    conv_lhs => rw [← high_low_split c]
    rw [xor_shiftLeft_distrib]
    rw [Nat.xor_assoc, Nat.xor_comm (c &&& 0xFFFFFF), ← Nat.xor_assoc]
  rw [hhi255, hsplit, crc32cBits_xor, crc32c_table_getD hidx,
    crc32cBits_of_small 8 (c &&& 0xFFFFFF) 24 (and_mask24_lt c) (by omega),
    shiftLeft8_masked, Nat.xor_comm b (c >>> 24)]
  exact Nat.xor_comm _ _

lemma crc32c_fold_eq (data : List Nat) :
    ∀ c, c < 2 ^ 32 → (∀ b ∈ data, b < 256) →
      data.foldl
        (fun crc b =>
          ((crc <<< 8) &&& 0xFFFFFFFF) ^^^
            CRC32C_TABLE.getD (b ^^^ ((crc >>> 24) &&& 0xFF)) 0) c =
      data.foldl (fun c2 b => crc32cBits 8 (c2 ^^^ (b <<< 24))) c := by
  induction data with
  | nil => intro c _ _; rfl
  | cons b rest ih =>
    intro c hc hall
    have hb : b < 256 := hall b (List.mem_cons_self b rest)
    simp only [List.foldl_cons]
    rw [crc32c_step_eq hc hb]
    apply ih
    · exact crc32cBits8_lt _
    · intro x hx
      exact hall x (List.mem_cons_of_mem b hx)

/-- The running CRC-32C value always fits in 32 bits. -/
lemma calc_crc32c_lt (data : List Nat) : calc_crc32c data < 2 ^ 32 := by
  unfold calc_crc32c
  have hgen : ∀ c, c < 2 ^ 32 →
      data.foldl
        (fun crc b =>
          ((crc <<< 8) &&& 0xFFFFFFFF) ^^^
            CRC32C_TABLE.getD (b ^^^ ((crc >>> 24) &&& 0xFF)) 0) c < 2 ^ 32 := by
    induction data with
    | nil => intro c hc; exact hc
    | cons b rest ih =>
      intro c hc
      simp only [List.foldl_cons]
      apply ih
      apply Nat.xor_lt_two_pow
      · rw [show (0xFFFFFFFF : Nat) = 2 ^ 32 - 1 by norm_num]
        exact Nat.lt_of_le_of_lt Nat.and_le_right (by norm_num)
      · have hmem : ∀ x ∈ CRC32C_TABLE, x < 2 ^ 32 := by decide
        by_cases hi : b ^^^ ((c >>> 24) &&& 0xFF) < CRC32C_TABLE.length
        · rw [List.getD_eq_getElem?_getD, List.getElem?_eq_getElem hi]
          exact hmem _ (List.getElem_mem hi)
        · rw [List.getD_eq_getElem?_getD, List.getElem?_eq_none (by omega)]
          norm_num
  exact hgen 0 (by norm_num)


lemma shrinkLoop_stuck {budget : Nat} {lines : List (List Char)}
    (hfix : truncPass lines = lines)
    (hbytes : ¬ (pageBytes lines ≤ budget ∨ lines = [])) :
    ∀ fuel, shrinkLoop fuel budget lines = none := by
  intro fuel
  induction fuel with
  | zero =>
    rw [shrinkLoop, if_neg hbytes]
  | succ n ih =>
    rw [shrinkLoop, if_neg hbytes, hfix]
    exact ih


/-! ### Words (`split()`) lemmas -/

lemma pyWordsAux_space {c : Char} (h : isPySpace c = true) (cur rest) :
    pyWordsAux cur (c :: rest) =
      if cur.isEmpty then pyWordsAux [] rest else cur :: pyWordsAux [] rest := by
  simp [pyWordsAux, h]

lemma pyWordsAux_nonspace {c : Char} (h : isPySpace c = false) (cur rest) :
    pyWordsAux cur (c :: rest) = pyWordsAux (cur ++ [c]) rest := by
  simp [pyWordsAux, h]

lemma pyWordsAux_word (w : List Char) (hw : ∀ c ∈ w, isPySpace c = false) :
    ∀ cur rest, pyWordsAux cur (w ++ rest) = pyWordsAux (cur ++ w) rest := by
  induction w with
  | nil => intro cur rest; simp
  | cons c w ih =>
    intro cur rest
    have hc : isPySpace c = false := hw c (List.mem_cons_self c w)
    rw [List.cons_append, pyWordsAux_nonspace hc,
      ih (fun d hd => hw d (List.mem_cons_of_mem c hd))]
    simp [List.append_assoc]

lemma pyWordsAux_append_space {c : Char} (h : isPySpace c = true) :
    ∀ (a : List Char) (cur b : List Char),
      pyWordsAux cur (a ++ c :: b) = pyWordsAux cur a ++ pyWords b := by
  intro a
  induction a with
  | nil =>
    intro cur b
    rw [List.nil_append, pyWordsAux_space h]
    cases hcur : cur.isEmpty <;> simp [pyWordsAux, hcur, pyWords]
  | cons d a ih =>
    intro cur b
    by_cases hd : isPySpace d
    · rw [List.cons_append, pyWordsAux_space hd, pyWordsAux_space hd, ih]
      cases hcur : cur.isEmpty <;> simp
    · have hd2 : isPySpace d = false := by
        cases h2 : isPySpace d
        · rfl
        · exact absurd h2 hd
      rw [List.cons_append, pyWordsAux_nonspace hd2, pyWordsAux_nonspace hd2, ih]

lemma pyWords_append_space {c : Char} (h : isPySpace c = true) (a b : List Char) :
    pyWords (a ++ c :: b) = pyWords a ++ pyWords b :=
  pyWordsAux_append_space h a [] b

lemma pyWords_space_cons {c : Char} (h : isPySpace c = true) (s : List Char) :
    pyWords (c :: s) = pyWords s := by
  have := pyWords_append_space h [] s
  simpa [pyWords, pyWordsAux] using this

lemma pyWords_append_space_single {c : Char} (h : isPySpace c = true)
    (a : List Char) : pyWords (a ++ [c]) = pyWords a := by
  have := pyWords_append_space h a []
  simpa [pyWords, pyWordsAux] using this

lemma pyWords_word {w : List Char} (hne : w ≠ [])
    (hw : ∀ c ∈ w, isPySpace c = false) : pyWords w = [w] := by
  have := pyWordsAux_word w hw [] []
  rw [List.append_nil, List.nil_append] at this
  rw [pyWords, this]
  unfold pyWordsAux
  rw [if_neg (by simpa using hne)]

lemma pyWordsAux_good :
    ∀ (s cur : List Char), (∀ c ∈ cur, isPySpace c = false) →
      ∀ w ∈ pyWordsAux cur s, goodWord w := by
  intro s
  induction s with
  | nil =>
    intro cur hcur w hw
    unfold pyWordsAux at hw
    by_cases hc : cur.isEmpty
    · rw [if_pos hc] at hw
      exact absurd hw (by simp)
    · rw [if_neg hc] at hw
      simp only [List.mem_singleton] at hw
      subst hw
      exact ⟨by simpa using hc, hcur⟩
  | cons c s ih =>
    intro cur hcur w hw
    by_cases hc : isPySpace c
    · rw [pyWordsAux_space hc] at hw
      by_cases hcur2 : cur.isEmpty
      · rw [if_pos hcur2] at hw
        exact ih [] (by simp) w hw
      · rw [if_neg hcur2] at hw
        rcases List.mem_cons.mp hw with hw | hw
        · subst hw
          exact ⟨by simpa using hcur2, hcur⟩
        · exact ih [] (by simp) w hw
    · have hc2 : isPySpace c = false := by
        cases h2 : isPySpace c
        · rfl
        · exact absurd h2 hc
      rw [pyWordsAux_nonspace hc2] at hw
      refine ih (cur ++ [c]) ?_ w hw
      intro d hd
      rcases List.mem_append.mp hd with hd | hd
      · exact hcur d hd
      · simp only [List.mem_singleton] at hd
        subst hd
        exact hc2

lemma pyWords_good {s : List Char} : ∀ w ∈ pyWords s, goodWord w :=
  pyWordsAux_good s [] (by simp)

lemma pyWordsAux_length_le :
    ∀ (s cur w : List Char), w ∈ pyWordsAux cur s →
      w.length ≤ cur.length + s.length := by
  intro s
  induction s with
  | nil =>
    intro cur w hw
    unfold pyWordsAux at hw
    by_cases hc : cur.isEmpty
    · rw [if_pos hc] at hw
      exact absurd hw (by simp)
    · rw [if_neg hc] at hw
      simp only [List.mem_singleton] at hw
      subst hw
      simp
  | cons c s ih =>
    intro cur w hw
    simp only [List.length_cons]
    by_cases hc : isPySpace c
    · rw [pyWordsAux_space hc] at hw
      by_cases hcur2 : cur.isEmpty
      · rw [if_pos hcur2] at hw
        have := ih [] w hw
        simp at this
        omega
      · rw [if_neg hcur2] at hw
        rcases List.mem_cons.mp hw with hw | hw
        · subst hw; omega
        · have := ih [] w hw
          simp at this
          omega
    · have hc2 : isPySpace c = false := by
        cases h2 : isPySpace c
        · rfl
        · exact absurd h2 hc
      rw [pyWordsAux_nonspace hc2] at hw
      have := ih (cur ++ [c]) w hw
      simp only [List.length_append, List.length_singleton] at this
      omega

lemma mem_pyWords_length_le {s w : List Char} (hw : w ∈ pyWords s) :
    w.length ≤ s.length := by
  have := pyWordsAux_length_le s [] w hw
  simpa using this

lemma pyWords_all_space {l : List Char} (h : ∀ c ∈ l, isPySpace c = true) :
    pyWords l = [] := by
  induction l with
  | nil => rfl
  | cons c rest ih =>
    rw [pyWords_space_cons (h c (List.mem_cons_self c rest))]
    exact ih (fun d hd => h d (List.mem_cons_of_mem c hd))

lemma pyWordsAux_eq_nil :
    ∀ (s cur : List Char), pyWordsAux cur s = [] →
      cur = [] ∧ ∀ c ∈ s, isPySpace c = true := by
  intro s
  induction s with
  | nil =>
    intro cur h
    unfold pyWordsAux at h
    by_cases hc : cur.isEmpty
    · exact ⟨by simpa using hc, by simp⟩
    · rw [if_neg hc] at h
      exact absurd h (by simp)
  | cons c s ih =>
    intro cur h
    by_cases hc : isPySpace c
    · rw [pyWordsAux_space hc] at h
      by_cases hcur2 : cur.isEmpty
      · rw [if_pos hcur2] at h
        have := ih [] h
        exact ⟨by simpa using hcur2, by
          intro d hd
          rcases List.mem_cons.mp hd with hd | hd
          · subst hd; exact hc
          · exact this.2 d hd⟩
      · rw [if_neg hcur2] at h
        exact absurd h (by simp)
    · have hc2 : isPySpace c = false := by
        cases h2 : isPySpace c
        · rfl
        · exact absurd h2 hc
      rw [pyWordsAux_nonspace hc2] at h
      have := ih (cur ++ [c]) h
      exact absurd this.1 (by simp)

lemma pyWords_eq_nil_iff {l : List Char} :
    pyWords l = [] ↔ ∀ c ∈ l, isPySpace c = true := by
  constructor
  · intro h
    exact (pyWordsAux_eq_nil l [] h).2
  · exact pyWords_all_space

lemma pyStrip_eq_nil_iff {l : List Char} :
    pyStrip l = [] ↔ ∀ c ∈ l, isPySpace c = true := by
  unfold pyStrip
  rw [List.reverse_eq_nil_iff, List.dropWhile_eq_nil_iff]
  constructor
  · intro h c hc
    by_cases hmem : c ∈ List.dropWhile isPySpace l
    · exact h c (by simpa using hmem)
    · have hsplit := List.takeWhile_append_dropWhile isPySpace l
      have : c ∈ List.takeWhile isPySpace l ++ List.dropWhile isPySpace l := by
        rw [hsplit]; exact hc
      rcases List.mem_append.mp this with h2 | h2
      · exact List.mem_takeWhile_imp h2
      · exact absurd h2 hmem
  · intro h c hc
    simp only [List.mem_reverse] at hc
    exact h c (List.dropWhile_subset isPySpace hc)


/-! ### Join / strip lemmas -/

lemma pyJoin_cons_cons (sep : List Char) (l l2 : List Char)
    (rest : List (List Char)) :
    pyJoin sep (l :: l2 :: rest) = l ++ sep ++ pyJoin sep (l2 :: rest) := rfl

lemma pyJoin_cons_head (sep : List Char) (c : Char) (r : List Char)
    (rs : List (List Char)) :
    pyJoin sep ((c :: r) :: rs) = c :: pyJoin sep (r :: rs) := by
  cases rs with
  | nil => rfl
  | cons r2 rs2 => rfl

lemma spaced_nil : spaced [] = [] := rfl

lemma spaced_append_singleton (ws : List (List Char)) (w : List Char) :
    spaced (ws ++ [w]) = spaced ws ++ w ++ [' '] := by
  simp [spaced]

lemma spaced_eq_nil_iff {ws : List (List Char)} : spaced ws = [] ↔ ws = [] := by
  cases ws with
  | nil => simp [spaced]
  | cons w t => simp [spaced]

lemma spaced_eq_pyJoin {ws : List (List Char)} (h : ws ≠ []) :
    spaced ws = pyJoin [' '] ws ++ [' '] := by
  induction ws with
  | nil => exact absurd rfl h
  | cons w t ih =>
    cases t with
    | nil => simp [spaced, pyJoin]
    | cons w2 t2 =>
      rw [pyJoin_cons_cons]
      have : spaced (w :: w2 :: t2) = w ++ [' '] ++ spaced (w2 :: t2) := by
        simp [spaced]
      rw [this, ih (by simp)]
      simp [List.append_assoc]

lemma pyJoin_append_singleton {ws : List (List Char)} (h : ws ≠ [])
    (w : List Char) :
    pyJoin [' '] (ws ++ [w]) = pyJoin [' '] ws ++ ' ' :: w := by
  induction ws with
  | nil => exact absurd rfl h
  | cons v t ih =>
    cases t with
    | nil => simp [pyJoin]
    | cons v2 t2 =>
      have e1 : (v :: v2 :: t2) ++ [w] = v :: (v2 :: (t2 ++ [w])) := by simp
      have e2 : v2 :: (t2 ++ [w]) = (v2 :: t2) ++ [w] := by simp
      rw [e1, pyJoin_cons_cons, e2, ih (by simp), pyJoin_cons_cons]
      simp [List.append_assoc]

lemma pyJoin_words_head {ws : List (List Char)} (hne : ws ≠ [])
    (hgood : ∀ w ∈ ws, goodWord w) :
    ∃ c t, pyJoin [' '] ws = c :: t ∧ isPySpace c = false := by
  cases ws with
  | nil => exact absurd rfl hne
  | cons w rest =>
    have hw := hgood w (List.mem_cons_self w rest)
    rcases w with _ | ⟨c, t⟩
    · exact absurd rfl hw.1
    · refine ⟨c, _, pyJoin_cons_head [' '] c t rest, ?_⟩
      exact hw.2 c (List.mem_cons_self c t)

lemma pyJoin_words_last {ws : List (List Char)} (hne : ws ≠ [])
    (hgood : ∀ w ∈ ws, goodWord w) :
    ∃ c t, (pyJoin [' '] ws).reverse = c :: t ∧ isPySpace c = false := by
  induction ws with
  | nil => exact absurd rfl hne
  | cons w rest ih =>
    cases rest with
    | nil =>
      have hw := hgood w (List.mem_cons_self w [])
      rcases hrev : w.reverse with _ | ⟨c, t⟩
      · rw [List.reverse_eq_nil_iff] at hrev
        exact absurd hrev hw.1
      · refine ⟨c, t, by simpa [pyJoin] using hrev, ?_⟩
        have : c ∈ w.reverse := by rw [hrev]; exact List.mem_cons_self c t
        exact hw.2 c (List.mem_reverse.mp this)
    | cons w2 rest2 =>
      obtain ⟨c, t, hct, hc⟩ := ih (by simp)
        (fun v hv => hgood v (List.mem_cons_of_mem w hv))
      refine ⟨c, t ++ [' '] ++ w.reverse, ?_, hc⟩
      rw [pyJoin_cons_cons, List.reverse_append, List.reverse_append, hct]
      simp [List.append_assoc]

lemma pyStrip_append_space {s : List Char}
    (hhead : ∃ c t, s = c :: t ∧ isPySpace c = false)
    (hlast : ∃ c t, s.reverse = c :: t ∧ isPySpace c = false) :
    pyStrip (s ++ [' ']) = s := by
  obtain ⟨c, t, hs, hc⟩ := hhead
  obtain ⟨c2, t2, hrev, hc2⟩ := hlast
  unfold pyStrip
  have h1 : List.dropWhile isPySpace (s ++ [' ']) = s ++ [' '] := by
    rw [hs, List.cons_append, List.dropWhile_cons, if_neg (by simp [hc])]
  rw [h1, List.reverse_append]
  have h2 : List.dropWhile isPySpace ([' '].reverse ++ s.reverse) =
      List.dropWhile isPySpace s.reverse := by
    simp [List.dropWhile_cons, show isPySpace ' ' = true from rfl]
  rw [h2, hrev, List.dropWhile_cons, if_neg (by simp [hc2]), ← hrev,
    List.reverse_reverse]

lemma pyStrip_spaced {ws : List (List Char)} (hne : ws ≠ [])
    (hgood : ∀ w ∈ ws, goodWord w) :
    pyStrip (spaced ws) = pyJoin [' '] ws := by
  rw [spaced_eq_pyJoin hne]
  exact pyStrip_append_space (pyJoin_words_head hne hgood)
    (pyJoin_words_last hne hgood)

lemma pyJoin_words_ne_nil {ws : List (List Char)} (hne : ws ≠ [])
    (hgood : ∀ w ∈ ws, goodWord w) : pyJoin [' '] ws ≠ [] := by
  obtain ⟨c, t, hct, _⟩ := pyJoin_words_head hne hgood
  rw [hct]
  simp

lemma pyWords_pyJoin_space {ws : List (List Char)}
    (hgood : ∀ w ∈ ws, goodWord w) :
    pyWords (pyJoin [' '] ws) = ws := by
  induction ws with
  | nil => rfl
  | cons w rest ih =>
    cases rest with
    | nil =>
      have hw := hgood w (List.mem_cons_self w [])
      simpa [pyJoin] using pyWords_word hw.1 hw.2
    | cons w2 rest2 =>
      have hw := hgood w (List.mem_cons_self w (w2 :: rest2))
      rw [pyJoin_cons_cons, List.append_assoc, List.singleton_append,
        pyWords_append_space (show isPySpace ' ' = true from rfl),
        pyWords_word hw.1 hw.2,
        ih (fun v hv => hgood v (List.mem_cons_of_mem w hv))]
      rfl

/-! ### Split on newline -/

lemma pySplitNl_ne_nil (s : List Char) : pySplitNl s ≠ [] := by
  cases s with
  | nil => simp [pySplitNl]
  | cons c rest =>
    unfold pySplitNl
    by_cases h : c = '\n'
    · simp [h]
    · rw [if_neg h]
      cases pySplitNl rest <;> simp

lemma pyJoin_pySplitNl (s : List Char) : pyJoin ['\n'] (pySplitNl s) = s := by
  induction s with
  | nil => rfl
  | cons c rest ih =>
    unfold pySplitNl
    by_cases h : c = '\n'
    · rw [if_pos h]
      cases hrest : pySplitNl rest with
      | nil => exact absurd hrest (pySplitNl_ne_nil rest)
      | cons r rs =>
        rw [pyJoin_cons_cons]
        rw [hrest] at ih
        rw [ih, h]
        rfl
    · rw [if_neg h]
      cases hrest : pySplitNl rest with
      | nil => exact absurd hrest (pySplitNl_ne_nil rest)
      | cons r rs =>
        rw [pyJoin_cons_head]
        rw [hrest] at ih
        rw [ih]

lemma pyWords_pyJoin_nl :
    ∀ ls : List (List Char),
      pyWords (pyJoin ['\n'] ls) = (ls.map pyWords).flatten := by
  intro ls
  induction ls with
  | nil => rfl
  | cons l rest ih =>
    cases rest with
    | nil => simp [pyJoin]
    | cons l2 rest2 =>
      rw [pyJoin_cons_cons, List.append_assoc, List.singleton_append,
        pyWords_append_space (show isPySpace '\n' = true from rfl), ih]
      simp

lemma pyWords_split_flatten (s : List Char) :
    ((pySplitNl s).map pyWords).flatten = pyWords s := by
  rw [← pyWords_pyJoin_nl, pyJoin_pySplitNl]


/-! ### Greedy wrap invariant -/

lemma spaced_length_eq {ws : List (List Char)} (h : ws ≠ []) :
    (spaced ws).length = (pyJoin [' '] ws).length + 1 := by
  rw [spaced_eq_pyJoin h, List.length_append]
  rfl

lemma wrap_fold (cpl : Nat) :
    ∀ (ws acc gws : List (List Char)),
      (∀ w ∈ ws, goodWord w) → (∀ w ∈ gws, goodWord w) →
      (∀ l ∈ acc, lineOK cpl l) →
      (gws = [] ∨ (pyJoin [' '] gws).length ≤ cpl ∨ ∃ w, gws = [w]) →
      ∃ acc2 gws2,
        ws.foldl (wrapStep cpl) (acc, spaced gws) = (acc2, spaced gws2) ∧
        (∀ w ∈ gws2, goodWord w) ∧
        (∀ l ∈ acc2, lineOK cpl l) ∧
        (gws2 = [] ∨ (pyJoin [' '] gws2).length ≤ cpl ∨ ∃ w, gws2 = [w]) ∧
        (acc2.map pyWords).flatten ++ gws2 =
          (acc.map pyWords).flatten ++ gws ++ ws := by
  intro ws
  induction ws with
  | nil =>
    intro acc gws _ hgws hacc hcur
    exact ⟨acc, gws, rfl, hgws, hacc, hcur, by simp⟩
  | cons w ws' ih =>
    intro acc gws hws hgws hacc hcur
    have hw : goodWord w := hws w (List.mem_cons_self _ _)
    have hws' : ∀ v ∈ ws', goodWord v :=
      fun v hv => hws v (List.mem_cons_of_mem _ hv)
    rw [List.foldl_cons]
    by_cases hcond : (spaced gws).length + w.length + 1 > cpl
    · have hstep : wrapStep cpl (acc, spaced gws) w =
          ((if (spaced gws).isEmpty then acc
            else acc ++ [pyStrip (spaced gws)]), spaced [w]) := by
        unfold wrapStep
        rw [if_pos hcond]
        simp [spaced]
      rw [hstep]
      by_cases hg : gws = []
      · subst hg
        rw [if_pos (by simp [spaced])]
        obtain ⟨acc2, gws2, h1, h2, h3, h4, h5⟩ :=
          ih acc [w] hws' (by
            intro v hv
            simp only [List.mem_singleton] at hv
            subst hv
            exact hw) hacc (Or.inr (Or.inr ⟨w, rfl⟩))
        exact ⟨acc2, gws2, h1, h2, h3, h4, by
          rw [h5]
          simp⟩
      · rw [if_neg (by simp [spaced_eq_nil_iff, hg]),
          pyStrip_spaced hg hgws]
        have hlineOK : lineOK cpl (pyJoin [' '] gws) := by
          refine ⟨gws, hg, hgws, rfl, ?_⟩
          rcases hcur with hcur | hcur | hcur
          · exact absurd hcur hg
          · exact Or.inl hcur
          · exact Or.inr hcur
        obtain ⟨acc2, gws2, h1, h2, h3, h4, h5⟩ :=
          ih (acc ++ [pyJoin [' '] gws]) [w] hws' (by
            intro v hv
            simp only [List.mem_singleton] at hv
            subst hv
            exact hw) (by
            intro l hl
            rcases List.mem_append.mp hl with hl | hl
            · exact hacc l hl
            · simp only [List.mem_singleton] at hl
              subst hl
              exact hlineOK) (Or.inr (Or.inr ⟨w, rfl⟩))
        refine ⟨acc2, gws2, h1, h2, h3, h4, ?_⟩
        rw [h5, List.map_append, List.flatten_append]
        simp [pyWords_pyJoin_space hgws, List.append_assoc]
    · have hstep : wrapStep cpl (acc, spaced gws) w =
          (acc, spaced (gws ++ [w])) := by
        unfold wrapStep
        rw [if_neg hcond, spaced_append_singleton]
      rw [hstep]
      have hcur2 : gws ++ [w] = [] ∨
          (pyJoin [' '] (gws ++ [w])).length ≤ cpl ∨ ∃ v, gws ++ [w] = [v] := by
        by_cases hg : gws = []
        · subst hg
          exact Or.inr (Or.inr ⟨w, rfl⟩)
        · refine Or.inr (Or.inl ?_)
          rw [pyJoin_append_singleton hg]
          have hsl := spaced_length_eq hg
          simp only [List.length_append, List.length_cons]
          omega
      obtain ⟨acc2, gws2, h1, h2, h3, h4, h5⟩ :=
        ih acc (gws ++ [w]) hws' (by
          intro v hv
          rcases List.mem_append.mp hv with hv | hv
          · exact hgws v hv
          · simp only [List.mem_singleton] at hv
            subst hv
            exact hw) hacc hcur2
      refine ⟨acc2, gws2, h1, h2, h3, h4, ?_⟩
      rw [h5]
      simp [List.append_assoc]

lemma wrapLine_result (cpl : Nat) (line : List Char)
    (hne : pyWords line ≠ []) :
    (∀ l ∈ wrapLine cpl line, lineOK cpl l) ∧
    ((wrapLine cpl line).map pyWords).flatten = pyWords line ∧
    wrapLine cpl line ≠ [] := by
  obtain ⟨acc2, gws2, hfold, hgood2, hacc2, hcur2, hwords⟩ :=
    wrap_fold cpl (pyWords line) [] [] (fun w hw => pyWords_good w hw)
      (by simp) (by simp) (Or.inl rfl)
  unfold wrapLine
  have hstart : (([], []) : List (List Char) × List Char) = ([], spaced []) := rfl
  rw [hstart]
  simp only [hfold]
  simp only [List.map_nil, List.flatten_nil, List.nil_append] at hwords
  by_cases hg : gws2 = []
  · subst hg
    rw [if_pos (by simp [spaced, pyStrip])]
    simp only [List.append_nil] at hwords
    refine ⟨hacc2, hwords, ?_⟩
    intro hnil
    rw [hnil] at hwords
    exact hne (by simpa using hwords.symm)
  · rw [pyStrip_spaced hg hgood2,
      if_neg (by simpa using pyJoin_words_ne_nil hg hgood2)]
    refine ⟨?_, ?_, by simp⟩
    · intro l hl
      rcases List.mem_append.mp hl with hl | hl
      · exact hacc2 l hl
      · simp only [List.mem_singleton] at hl
        subst hl
        refine ⟨gws2, hg, hgood2, rfl, ?_⟩
        rcases hcur2 with h | h | h
        · exact absurd h hg
        · exact Or.inl h
        · exact Or.inr h
    · rw [List.map_append, List.flatten_append]
      simp [pyWords_pyJoin_space hgood2, hwords]

lemma wrapText_result (cpl : Nat) (text : List Char) :
    ((wrapText cpl text).map pyWords).flatten = pyWords text ∧
    (∀ l ∈ wrapText cpl text, lineOK cpl l ∨ l = []) ∧
    wrapText cpl text ≠ [] := by
  have key : ∀ ls : List (List Char),
      ((((ls.map (fun line => if (pyStrip line).isEmpty
          then [([] : List Char)] else wrapLine cpl line)).flatten).map
            pyWords).flatten = (ls.map pyWords).flatten) ∧
      (∀ l ∈ (ls.map (fun line => if (pyStrip line).isEmpty
          then [([] : List Char)] else wrapLine cpl line)).flatten,
        lineOK cpl l ∨ l = []) ∧
      (ls ≠ [] → (ls.map (fun line => if (pyStrip line).isEmpty
          then [([] : List Char)] else wrapLine cpl line)).flatten ≠ []) := by
    intro ls
    induction ls with
    | nil => exact ⟨rfl, by simp, fun h => absurd rfl h⟩
    | cons line rest ih =>
      simp only [List.map_cons, List.flatten_cons]
      by_cases hblank : (pyStrip line).isEmpty
      · have hall : ∀ c ∈ line, isPySpace c = true :=
          pyStrip_eq_nil_iff.mp (by simpa using hblank)
        rw [if_pos hblank]
        refine ⟨?_, ?_, ?_⟩
        · simp only [List.map_append, List.flatten_append]
          rw [ih.1, pyWords_all_space hall]
          rfl
        · intro l hl
          rcases List.mem_append.mp hl with hl | hl
          · simp only [List.mem_singleton] at hl
            exact Or.inr hl
          · exact ih.2.1 l hl
        · intro _
          simp
      · have hne : pyWords line ≠ [] := by
          intro h
          rw [pyWords_eq_nil_iff] at h
          exact hblank (by simp [pyStrip_eq_nil_iff.mpr h])
        obtain ⟨hOK, hwords, hnonempty⟩ := wrapLine_result cpl line hne
        rw [if_neg hblank]
        refine ⟨?_, ?_, ?_⟩
        · simp only [List.map_append, List.flatten_append]
          rw [ih.1, hwords]
        · intro l hl
          rcases List.mem_append.mp hl with hl | hl
          · exact Or.inl (hOK l hl)
          · exact ih.2.1 l hl
        · intro _
          intro habs
          rcases List.append_eq_nil.mp habs with ⟨h1, _⟩
          exact hnonempty h1
  have h := key (pySplitNl text)
  unfold wrapText
  refine ⟨?_, h.2.1, h.2.2 (pySplitNl_ne_nil text)⟩
  rw [h.1, pyWords_split_flatten]

lemma wrappedOf_eq (cpl : Nat) (text : List Char) :
    wrappedOf cpl text = wrapText cpl text := by
  unfold wrappedOf
  rw [if_neg (by simpa using (wrapText_result cpl text).2.2)]


/-! ### Pagination lemmas -/

lemma paginateF_mem (lpp : Nat) :
    ∀ (fuel : Nat) (ls : List (List Char)),
      ∀ page ∈ paginateF fuel lpp ls, ∀ l ∈ page, l ∈ ls ∨ l = [' '] := by
  intro fuel
  induction fuel with
  | zero =>
    intro ls page hp
    cases ls <;> simp [paginateF] at hp
  | succ n ih =>
    intro ls page hp l hl
    cases ls with
    | nil => simp [paginateF] at hp
    | cons a rest =>
      rw [show paginateF (n + 1) lpp (a :: rest) =
        ((a :: rest).take lpp ++
          List.replicate (lpp - (a :: rest).length) [' ']) ::
          paginateF n lpp ((a :: rest).drop lpp) from rfl] at hp
      rcases List.mem_cons.mp hp with hp | hp
      · subst hp
        rcases List.mem_append.mp hl with hl | hl
        · exact Or.inl (List.take_subset lpp _ hl)
        · exact Or.inr (List.eq_of_mem_replicate hl)
      · rcases ih _ page hp l hl with h | h
        · exact Or.inl (List.drop_subset lpp _ h)
        · exact Or.inr h

lemma pyWords_single_space : pyWords [' '] = [] := rfl

lemma flatten_words_replicate (k : Nat) :
    ((List.replicate k ([' '] : List Char)).map pyWords).flatten = [] := by
  induction k with
  | zero => rfl
  | succ n ih => simpa [List.replicate_succ, pyWords_single_space] using ih

lemma paginateF_words (lpp : Nat) (hlpp : 0 < lpp) :
    ∀ (fuel : Nat) (ls : List (List Char)), ls.length ≤ fuel →
      ((paginateF fuel lpp ls).map
        (fun page => (page.map pyWords).flatten)).flatten =
      (ls.map pyWords).flatten := by
  intro fuel
  induction fuel with
  | zero =>
    intro ls h
    cases ls with
    | nil => rfl
    | cons a rest => simp at h
  | succ n ih =>
    intro ls h
    cases ls with
    | nil => rfl
    | cons a rest =>
      rw [show paginateF (n + 1) lpp (a :: rest) =
        ((a :: rest).take lpp ++
          List.replicate (lpp - (a :: rest).length) [' ']) ::
          paginateF n lpp ((a :: rest).drop lpp) from rfl]
      simp only [List.map_cons, List.flatten_cons]
      rw [ih ((a :: rest).drop lpp) (by
        rw [List.length_drop]
        simp only [List.length_cons] at h ⊢
        omega)]
      rw [List.map_append, List.flatten_append, flatten_words_replicate,
        List.append_nil]
      rw [← List.flatten_append, ← List.map_append, List.take_append_drop]
      simp

lemma paginate_words (lpp : Nat) (hlpp : 0 < lpp) (ls : List (List Char)) :
    ((paginate lpp ls).map
      (fun page => (page.map pyWords).flatten)).flatten =
    (ls.map pyWords).flatten :=
  paginateF_words lpp hlpp ls.length ls (Nat.le_refl _)

lemma words_render_concat :
    ∀ pgs : List (List (List Char)),
      pyWords ((pgs.map renderPage).flatten) =
        (pgs.map (fun page => (page.map pyWords).flatten)).flatten := by
  intro pgs
  induction pgs with
  | nil => rfl
  | cons page rest ih =>
    simp only [List.map_cons, List.flatten_cons]
    have e : renderPage page ++ (rest.map renderPage).flatten =
        pyJoin ['\n'] page ++
          ' ' :: ('\n' :: (rest.map renderPage).flatten) := by
      unfold renderPage
      simp
    rw [e, pyWords_append_space (show isPySpace ' ' = true from rfl),
      pyWords_space_cons (show isPySpace '\n' = true from rfl), ih,
      pyWords_pyJoin_nl]

lemma blankPage_words (lpp : Nat) :
    ((blankPage lpp).map pyWords).flatten = [] :=
  flatten_words_replicate lpp

lemma flatten_words_blank_pages (k lpp : Nat) :
    ((List.replicate k (blankPage lpp)).map
      (fun page => (page.map pyWords).flatten)).flatten = [] := by
  induction k with
  | zero => rfl
  | succ n ih => simpa [List.replicate_succ, blankPage_words] using ih

lemma format_text_lines_mem (text : List Char) (cpl lpp : Nat) :
    ∀ page ∈ format_text_lines text cpl lpp, ∀ l ∈ page,
      l ∈ wrapText cpl (pyReplaceEsc text) ∨ l = [' '] := by
  unfold format_text_lines
  rw [wrappedOf_eq]
  intro page hp l hl
  rcases List.mem_append.mp hp with hp | hp
  · rcases paginateF_mem lpp _ _ page hp l hl with h | h
    · rcases List.mem_append.mp h with h | h
      · exact Or.inl h
      · exact Or.inr (List.eq_of_mem_replicate h)
    · exact Or.inr h
  · have hpage := List.eq_of_mem_replicate hp
    subst hpage
    exact Or.inr (List.eq_of_mem_replicate hl)

lemma format_text_words (text : List Char) (cpl lpp : Nat) (hlpp : 0 < lpp) :
    pyWords ((format_text text cpl lpp).flatten) =
      pyWords (pyReplaceEsc text) := by
  unfold format_text
  rw [words_render_concat]
  unfold format_text_lines
  rw [wrappedOf_eq]
  rw [List.map_append, List.flatten_append, flatten_words_blank_pages,
    List.append_nil, paginate_words lpp hlpp, List.map_append,
    List.flatten_append, flatten_words_replicate, List.append_nil,
    (wrapText_result cpl (pyReplaceEsc text)).1]


/-! ### Notification JSON lemmas -/

lemma utf8Len_nil : utf8Len [] = 0 := rfl

lemma utf8Len_cons (c : Char) (t : List Char) :
    utf8Len (c :: t) = utf8Size c + utf8Len t := by
  simp [utf8Len]

lemma utf8Len_append (a b : List Char) :
    utf8Len (a ++ b) = utf8Len a + utf8Len b := by
  simp [utf8Len]

lemma plainChar_utf8Size {c : Char} (h : plainChar c) : utf8Size c = 1 := by
  obtain ⟨h1, h2, _, _⟩ := h
  unfold utf8Size
  rw [if_pos (by omega)]

lemma plainChar_escape {c : Char} (h : plainChar c) : jsonEscapeChar c = [c] := by
  obtain ⟨h1, h2, h3, h4⟩ := h
  unfold jsonEscapeChar
  rw [if_neg h3, if_neg h4,
    if_neg (by intro hC; subst hC; exact absurd h1 (by decide)),
    if_neg (by intro hC; subst hC; exact absurd h1 (by decide)),
    if_neg (by intro hC; subst hC; exact absurd h1 (by decide)),
    if_neg (by omega), if_neg (by omega), if_pos ⟨h1, h2⟩]

lemma jsonEscape_plain {s : List Char} (h : ∀ c ∈ s, plainChar c) :
    jsonEscape s = s := by
  induction s with
  | nil => rfl
  | cons c rest ih =>
    have e : jsonEscape (c :: rest) = jsonEscapeChar c ++ jsonEscape rest := by
      simp [jsonEscape]
    rw [e, plainChar_escape (h c (List.mem_cons_self _ _)),
      ih (fun d hd => h d (List.mem_cons_of_mem _ hd))]
    rfl

lemma utf8Len_plain {s : List Char} (h : ∀ c ∈ s, plainChar c) :
    utf8Len s = s.length := by
  induction s with
  | nil => rfl
  | cons c rest ih =>
    rw [utf8Len_cons, plainChar_utf8Size (h c (List.mem_cons_self _ _)),
      ih (fun d hd => h d (List.mem_cons_of_mem _ hd)), List.length_cons]
    omega

lemma jsonStr_plain_len {s : List Char} (h : ∀ c ∈ s, plainChar c) :
    utf8Len (jsonStr s) = s.length + 2 := by
  unfold jsonStr
  rw [jsonEscape_plain h, utf8Len_append, utf8Len_cons, utf8Len_plain h]
  have e1 : utf8Size '"' = 1 := rfl
  have e2 : utf8Len ['"'] = 1 := rfl
  rw [e1, e2]
  omega

lemma utf8Size_digit : ∀ d, d < 10 → utf8Size (Char.ofNat (48 + d)) = 1 := by
  decide

lemma utf8Len_decDigits (n : Nat) :
    utf8Len (decDigits n) = (decDigits n).length := by
  induction n using Nat.strong_induction_on with
  | _ n ih =>
    by_cases h : n < 10
    · rw [decDigits, if_pos h]
      simp [utf8Len, utf8Size_digit n h]
    · rw [decDigits, if_neg h]
      rw [utf8Len_append, ih (n / 10) (Nat.div_lt_self (by omega) (by norm_num)),
        List.length_append]
      simp [utf8Len, utf8Size_digit (n % 10) (Nat.mod_lt n (by norm_num))]

lemma decDigits_len_pow :
    ∀ k n, 10 ^ k ≤ n → n < 10 ^ (k + 1) → (decDigits n).length = k + 1 := by
  intro k
  induction k with
  | zero =>
    intro n h1 h2
    rw [decDigits, if_pos (by norm_num at h2 ⊢; omega)]
    rfl
  | succ k ihk =>
    intro n h1 h2
    have h10 : ¬ n < 10 := by
      have : (10 : Nat) ^ 1 ≤ 10 ^ (k + 1) := Nat.pow_le_pow_right (by norm_num) (by omega)
      simp at this
      omega
    rw [decDigits, if_neg h10, List.length_append]
    have hlow : 10 ^ k ≤ n / 10 := by
      rw [Nat.le_div_iff_mul_le (by norm_num)]
      calc 10 ^ k * 10 = 10 ^ (k + 1) := by rw [Nat.pow_succ]
        _ ≤ n := h1
    have hhigh : n / 10 < 10 ^ (k + 1) := by
      rw [Nat.div_lt_iff_lt_mul (by norm_num)]
      calc n < 10 ^ (k + 2) := h2
        _ = 10 ^ (k + 1) * 10 := by rw [Nat.pow_succ]
    rw [ihk (n / 10) hlow hhigh]
    rfl

lemma decDigits_msgid_len (ts : Nat) :
    (decDigits (10000 + ts % 10000)).length = 5 := by
  have hmod : ts % 10000 < 10000 := Nat.mod_lt ts (by norm_num)
  have h1 : 10 ^ 4 ≤ 10000 + ts % 10000 := by norm_num
  have h2 : 10000 + ts % 10000 < 10 ^ (4 + 1) := by norm_num; omega
  exact decDigits_len_pow 4 _ h1 h2

lemma make_json_len (ts : Nat) (date app dn t s m : List Char)
    (hdate : ∀ c ∈ date, plainChar c) (happ : ∀ c ∈ app, plainChar c)
    (hdn : ∀ c ∈ dn, plainChar c) (ht : ∀ c ∈ t, plainChar c)
    (hs : ∀ c ∈ s, plainChar c) (hm : ∀ c ∈ m, plainChar c) :
    utf8Len (make_json ts date app dn t s m) =
      131 + (decDigits (10000 + ts % 10000)).length + (decDigits ts).length +
        (date.length + 2) + (app.length + 2) + (dn.length + 2) +
        (t.length + 2) + (s.length + 2) + (m.length + 2) := by
  unfold make_json
  simp only [utf8Len_append]
  rw [jsonStr_plain_len happ, jsonStr_plain_len ht, jsonStr_plain_len hs,
    jsonStr_plain_len hm, jsonStr_plain_len hdate, jsonStr_plain_len hdn,
    utf8Len_decDigits, utf8Len_decDigits]
  have e1 : utf8Len (("\x7b\"android_notification\":\x7b\"msg_id\":").toList) = 34 := rfl
  have e2 : utf8Len ((",\"action\":0,\"app_identifier\":").toList) = 29 := rfl
  have e3 : utf8Len ((",\"title\":").toList) = 9 := rfl
  have e4 : utf8Len ((",\"subtitle\":").toList) = 12 := rfl
  have e5 : utf8Len ((",\"message\":").toList) = 11 := rfl
  have e6 : utf8Len ((",\"time_s\":").toList) = 10 := rfl
  have e7 : utf8Len ((",\"date\":").toList) = 8 := rfl
  have e8 : utf8Len ((",\"display_name\":").toList) = 16 := rfl
  have e9 : utf8Len (("\x7d\x7d").toList) = 2 := rfl
  rw [e1, e2, e3, e4, e5, e6, e7, e8, e9]
  ring

lemma list_take_plain {s : List Char} (h : ∀ c ∈ s, plainChar c) (n : Nat) :
    ∀ c ∈ s.take n, plainChar c :=
  fun c hc => h c (List.take_subset n s hc)

lemma ellipsis_plain : ∀ c ∈ (("...").toList), plainChar c := by
  decide

lemma truncate_field_small {text : List Char} {n : Int} (h0 : 0 ≤ n)
    (hn3 : 3 < n) (hlt : n < (text.length : Int)) :
    truncate_field text n = text.take (n - 3).toNat ++ ("...").toList ∧
    ((truncate_field text n).length : Int) = n := by
  unfold truncate_field
  rw [if_neg (by omega), if_neg (by omega)]
  unfold pySliceTo
  rw [if_pos (by omega)]
  refine ⟨rfl, ?_⟩
  rw [List.length_append, List.length_take]
  have h1 : (n - 3).toNat ≤ text.length := by omega
  have h2 : min (n - 3).toNat text.length = (n - 3).toNat :=
    Nat.min_eq_left h1
  have h3 : (("...").toList).length = 3 := rfl
  rw [h2, h3]
  omega

lemma truncate_field_tiny {text : List Char} {n : Int} (h0 : 0 ≤ n)
    (hn3 : n ≤ 3) (hlt : n < (text.length : Int)) :
    truncate_field text n = text.take n.toNat ∧
    ((truncate_field text n).length : Int) = n := by
  unfold truncate_field
  rw [if_neg (by omega), if_pos hn3]
  unfold pySliceTo
  rw [if_pos h0]
  refine ⟨rfl, ?_⟩
  rw [List.length_take]
  have h1 : n.toNat ≤ text.length := by omega
  rw [Nat.min_eq_left h1]
  omega

lemma truncate_field_len {text : List Char} {n : Int} (h0 : 0 ≤ n)
    (hlt : n < (text.length : Int)) :
    ((truncate_field text n).length : Int) = n := by
  by_cases h3 : n ≤ 3
  · exact (truncate_field_tiny h0 h3 hlt).2
  · exact (truncate_field_small h0 (by omega) hlt).2

lemma truncate_field_plain {text : List Char} {n : Int}
    (hp : ∀ c ∈ text, plainChar c) (h0 : 0 ≤ n)
    (hlt : n < (text.length : Int)) :
    ∀ c ∈ truncate_field text n, plainChar c := by
  by_cases h3 : n ≤ 3
  · rw [(truncate_field_tiny h0 h3 hlt).1]
    exact list_take_plain hp _
  · rw [(truncate_field_small h0 (by omega) hlt).1]
    intro c hc
    rcases List.mem_append.mp hc with hc | hc
    · exact list_take_plain hp _ c hc
    · exact ellipsis_plain c hc


/-- The serialized length of `make_json` with the default `app_id` and
`display_name`, a 15-character date and a 10-digit timestamp: fixed
overhead 199 plus the three field lengths. -/
lemma make_json_len_default (ts : Nat) (date t s m : List Char)
    (hts1 : 10 ^ 9 ≤ ts) (hts2 : ts < 10 ^ 10)
    (hdlen : date.length = 15) (hdpl : ∀ c ∈ date, plainChar c)
    (ht : ∀ c ∈ t, plainChar c) (hs : ∀ c ∈ s, plainChar c)
    (hm : ∀ c ∈ m, plainChar c) :
    utf8Len (make_json ts date (("com.google.android.gm").toList)
      (("Gmail").toList) t s m) = 199 + t.length + s.length + m.length := by
  have happ : ∀ c ∈ (("com.google.android.gm").toList), plainChar c := by decide
  have hdn : ∀ c ∈ (("Gmail").toList), plainChar c := by decide
  have hdd : (decDigits ts).length = 10 := decDigits_len_pow 9 ts hts1 hts2
  have e1 : ((("com.google.android.gm").toList)).length = 21 := rfl
  have e2 : ((("Gmail").toList)).length = 5 := rfl
  rw [make_json_len ts date _ _ t s m hdpl happ hdn ht hs hm,
    decDigits_msgid_len, hdd, hdlen, e1, e2]
  omega

lemma decode_varint_ne_nil {bs : List Nat} {v : Nat}
    (h : decode_varint bs = some v) : bs ≠ [] := by
  intro hnil
  subst hnil
  rw [decode_varint, decode_go_nil] at h
  exact absurd h (by simp)

end G2

/-- C1: for in-range sequence, service and count bytes and a payload with
`len(payload) + 2 ≤ 255`, `build_packet` returns exactly `10 + len(payload)`
bytes laid out as the 8-byte header
`[0xAA, 0x21, seq, len(payload)+2, total, index, svc_hi, svc_lo]`, then the
payload, then `crc16_ccitt(payload)` as two trailing bytes low byte first;
the CRC is computed over the payload only. -/
theorem C1_build_packet_layout (seq hi lo tot idx : Nat) (payload : List Nat)
    (hseq : seq < 256) (hhi : hi < 256) (hlo : lo < 256)
    (htot : tot < 256) (hidx : idx < 256) (hlen : payload.length + 2 ≤ 255) :
    ∃ bs, G2.build_packet seq hi lo payload tot idx = some bs ∧
      bs = [0xAA, 0x21, seq, payload.length + 2, tot, idx, hi, lo] ++ payload ++
        [G2.crc16_ccitt payload % 256, G2.crc16_ccitt payload / 256 % 256] ∧
      bs.length = 10 + payload.length ∧
      G2.crc16_ccitt payload =
        G2.crc16_ccitt payload % 256 + 256 * (G2.crc16_ccitt payload / 256 % 256) := by
  refine ⟨_, G2.build_packet_some seq hi lo tot idx payload hseq hhi hlo htot hidx hlen,
    rfl, ?_, ?_⟩
  · simp only [List.length_append, List.length_cons, List.length_nil]
    omega
  · have h := G2.crc16_ccitt_lt payload
    omega

theorem C1_build_packet_layout_witness :
    ∃ bs, G2.build_packet 8 0x07 0x20 [1, 2, 3] 1 1 = some bs ∧
      bs = [0xAA, 0x21, 8, 5, 1, 1, 0x07, 0x20] ++ [1, 2, 3] ++
        [G2.crc16_ccitt [1, 2, 3] % 256, G2.crc16_ccitt [1, 2, 3] / 256 % 256] ∧
      bs.length = 10 + 3 ∧
      G2.crc16_ccitt [1, 2, 3] =
        G2.crc16_ccitt [1, 2, 3] % 256 + 256 * (G2.crc16_ccitt [1, 2, 3] / 256 % 256) := by
  have h := C1_build_packet_layout 8 0x07 0x20 1 1 [1, 2, 3]
    (by decide) (by decide) (by decide) (by decide) (by decide) (by decide)
  simpa using h

/-- C4: with the other header bytes in range, `build_packet` fails (the
Python `bytes` constructor raises, propagated to the caller) exactly when
`len(payload) + 2 > 255`, i.e. when the single-byte length field overflows;
for every payload with `len(payload) + 2 ≤ 255` it succeeds. -/
theorem C4_build_packet_fails_iff (seq hi lo tot idx : Nat) (payload : List Nat)
    (hseq : seq < 256) (hhi : hi < 256) (hlo : lo < 256)
    (htot : tot < 256) (hidx : idx < 256) :
    (G2.build_packet seq hi lo payload tot idx = none ↔ 255 < payload.length + 2) ∧
    (255 < payload.length + 2 → G2.build_packet seq hi lo payload tot idx = none) ∧
    (payload.length + 2 ≤ 255 →
      (G2.build_packet seq hi lo payload tot idx).isSome) := by
  have hnone : 255 < payload.length + 2 →
      G2.build_packet seq hi lo payload tot idx = none := by
    intro h
    unfold G2.build_packet G2.pyBytes
    rw [if_neg]
    · rfl
    · intro hall
      have := hall (payload.length + 2) (by simp)
      omega
  have hsome : payload.length + 2 ≤ 255 →
      (G2.build_packet seq hi lo payload tot idx).isSome := by
    intro h
    rw [G2.build_packet_some seq hi lo tot idx payload hseq hhi hlo htot hidx h]
    rfl
  refine ⟨⟨fun hn => ?_, hnone⟩, hnone, hsome⟩
  by_contra hlt
  push_neg at hlt
  have := hsome (by omega)
  rw [hn] at this
  simp at this

theorem C4_build_packet_fails_iff_witness :
    (G2.build_packet 1 0xC5 0 (List.replicate 254 0) 1 1 = none ↔ 255 < 254 + 2) ∧
    (G2.build_packet 1 0xC5 0 (List.replicate 254 0) 1 1 = none) := by
  have h := C4_build_packet_fails_iff 1 0xC5 0 1 1 (List.replicate 254 0)
    (by decide) (by decide) (by decide) (by decide) (by decide)
  simp only [List.length_replicate] at h
  exact ⟨h.1, h.2.1 (by omega)⟩


/-- C6: for every `v < 2^64`, `encode_varint v` is the minimal base-128
varint encoding of `v`: it is nonempty, the continuation bit `0x80` is set
on every byte except the final one, the final byte is below `0x80`, a
standard LEB128 decoder returns `v`, and no byte sequence the decoder maps
to `v` is shorter. -/
theorem C6_encode_varint_minimal (v : Nat) (h : v < 2 ^ 64) :
    G2.encode_varint v ≠ [] ∧
    (∀ i, i + 1 < (G2.encode_varint v).length →
      ((G2.encode_varint v).getD i 0) &&& 0x80 = 0x80) ∧
    (G2.encode_varint v).getLastD 0 < 0x80 ∧
    G2.decode_varint (G2.encode_varint v) = some v ∧
    (∀ bs, G2.decode_varint bs = some v →
      (G2.encode_varint v).length ≤ bs.length) := by
  refine ⟨G2.encode_varint_ne_nil v, G2.encode_varint_cont v,
    G2.encode_varint_getLastD v 0, ?_, ?_⟩
  · exact G2.decode_go_encode v 10 (G2.encode_varint_length_le_ten h)
  · intro bs hbs
    have hne := G2.decode_varint_ne_nil hbs
    rw [G2.decode_varint] at hbs
    have hlt := G2.decode_go_lt bs 10 v hbs
    have hbs1 : 1 ≤ bs.length := List.length_pos.mpr hne
    by_cases hL2 : 2 ≤ (G2.encode_varint v).length
    · have hlow := G2.encode_varint_lower v hL2
      have hpow : (2 : Nat) ^ (7 * ((G2.encode_varint v).length - 1)) <
          2 ^ (7 * bs.length) := lt_of_le_of_lt hlow hlt
      have := (Nat.pow_lt_pow_iff_right (by norm_num : (1 : Nat) < 2)).mp hpow
      omega
    · omega

theorem C6_encode_varint_minimal_witness :
    (300 : Nat) < 2 ^ 64 ∧
    G2.decode_varint (G2.encode_varint 300) = some 300 ∧
    (G2.encode_varint 300).getLastD 0 < 0x80 := by
  have h := C6_encode_varint_minimal 300 (by norm_num)
  exact ⟨by norm_num, h.2.2.2.1, h.2.2.1⟩

/-- C10: for every timestamp below `2^64`, `build_auth_packets` returns
exactly 7 packets whose header sequence bytes (offset 2) are 1 through 7 in
order, whose `total_count` and `packet_index` header bytes (offsets 4 and 5)
are both `0x01`, and whose 3rd and 7th packets embed the same timestamp
varint followed by the identical fixed 10-byte transaction id
`E8 FF FF FF FF FF FF FF FF 01`. -/
theorem C10_build_auth_packets (ts : Nat) (h : ts < 2 ^ 64) :
    ∃ ps, G2.build_auth_packets ts = some ps ∧
      ps.length = 7 ∧
      (∀ i, i < 7 → (ps.getD i []).getD 2 0 = i + 1 ∧
        (ps.getD i []).getD 4 0 = 0x01 ∧ (ps.getD i []).getD 5 0 = 0x01) ∧
      G2.auth_txid = [0xE8, 0xFF, 0xFF, 0xFF, 0xFF, 0xFF, 0xFF, 0xFF, 0xFF, 0x01] ∧
      List.IsInfix (G2.encode_varint ts ++ 0x10 :: G2.auth_txid) (ps.getD 2 []) ∧
      List.IsInfix (G2.encode_varint ts ++ 0x10 :: G2.auth_txid) (ps.getD 6 []) := by
  have hL := G2.encode_varint_length_le_ten h
  have hlen3 : (G2.auth_payload3 ts).length + 2 < 256 := by
    simp only [G2.auth_payload3, List.length_append, List.length_cons,
      List.length_nil, G2.auth_txid]
    omega
  have hlen7 : (G2.auth_payload7 ts).length + 2 < 256 := by
    simp only [G2.auth_payload7, List.length_append, List.length_cons,
      List.length_nil, G2.auth_txid]
    omega
  have h3 := @G2.pyBytes_of_lt [0xAA, 0x21, 0x03,
    (G2.auth_payload3 ts).length + 2, 0x01, 0x01, 0x80, 0x20]
    (by
      intro b hb
      simp only [List.mem_cons, List.not_mem_nil, or_false] at hb
      rcases hb with h | h | h | h | h | h | h | h <;> omega)
  have h7 := @G2.pyBytes_of_lt [0xAA, 0x21, 0x07,
    (G2.auth_payload7 ts).length + 2, 0x01, 0x01, 0x80, 0x20]
    (by
      intro b hb
      simp only [List.mem_cons, List.not_mem_nil, or_false] at hb
      rcases hb with h | h | h | h | h | h | h | h <;> omega)
  refine ⟨[G2.add_crc G2.auth_p1, G2.add_crc G2.auth_p2,
    G2.add_crc ([0xAA, 0x21, 0x03, (G2.auth_payload3 ts).length + 2,
      0x01, 0x01, 0x80, 0x20] ++ G2.auth_payload3 ts),
    G2.add_crc G2.auth_p4, G2.add_crc G2.auth_p5, G2.add_crc G2.auth_p6,
    G2.add_crc ([0xAA, 0x21, 0x07, (G2.auth_payload7 ts).length + 2,
      0x01, 0x01, 0x80, 0x20] ++ G2.auth_payload7 ts)], ?_, ?_, ?_, rfl, ?_, ?_⟩
  · rw [G2.build_auth_packets, h3, h7]
    rfl
  · rfl
  · intro i hi
    interval_cases i <;>
      exact ⟨by simp [G2.add_crc, G2.auth_p1, G2.auth_p2, G2.auth_p4, G2.auth_p5,
          G2.auth_p6, List.getD_cons_succ, List.getD_cons_zero],
        by simp [G2.add_crc, G2.auth_p1, G2.auth_p2, G2.auth_p4, G2.auth_p5,
          G2.auth_p6, List.getD_cons_succ, List.getD_cons_zero],
        by simp [G2.add_crc, G2.auth_p1, G2.auth_p2, G2.auth_p4, G2.auth_p5,
          G2.auth_p6, List.getD_cons_succ, List.getD_cons_zero]⟩
  · refine ⟨[0xAA, 0x21, 0x03, (G2.auth_payload3 ts).length + 2,
      0x01, 0x01, 0x80, 0x20] ++ [0x08, 0x80, 0x01, 0x10, 0x0F, 0x82, 0x08, 0x11, 0x08],
      [G2.crc16_ccitt (([0xAA, 0x21, 0x03, (G2.auth_payload3 ts).length + 2,
          0x01, 0x01, 0x80, 0x20] ++ G2.auth_payload3 ts).drop 8) &&& 0xFF,
        (G2.crc16_ccitt (([0xAA, 0x21, 0x03, (G2.auth_payload3 ts).length + 2,
          0x01, 0x01, 0x80, 0x20] ++ G2.auth_payload3 ts).drop 8) >>> 8) &&& 0xFF], ?_⟩
    simp [G2.add_crc, G2.auth_payload3, List.append_assoc]
  · refine ⟨[0xAA, 0x21, 0x07, (G2.auth_payload7 ts).length + 2,
      0x01, 0x01, 0x80, 0x20] ++ [0x08, 0x80, 0x01, 0x10, 0x13, 0x82, 0x08, 0x11, 0x08],
      [G2.crc16_ccitt (([0xAA, 0x21, 0x07, (G2.auth_payload7 ts).length + 2,
          0x01, 0x01, 0x80, 0x20] ++ G2.auth_payload7 ts).drop 8) &&& 0xFF,
        (G2.crc16_ccitt (([0xAA, 0x21, 0x07, (G2.auth_payload7 ts).length + 2,
          0x01, 0x01, 0x80, 0x20] ++ G2.auth_payload7 ts).drop 8) >>> 8) &&& 0xFF], ?_⟩
    simp [G2.add_crc, G2.auth_payload7, List.append_assoc]

theorem C10_build_auth_packets_witness :
    ∃ ps, G2.build_auth_packets 1700000000 = some ps ∧
      ps.length = 7 ∧
      (∀ i, i < 7 → (ps.getD i []).getD 2 0 = i + 1 ∧
        (ps.getD i []).getD 4 0 = 0x01 ∧ (ps.getD i []).getD 5 0 = 0x01) ∧
      G2.auth_txid = [0xE8, 0xFF, 0xFF, 0xFF, 0xFF, 0xFF, 0xFF, 0xFF, 0xFF, 0x01] ∧
      List.IsInfix (G2.encode_varint 1700000000 ++ 0x10 :: G2.auth_txid) (ps.getD 2 []) ∧
      List.IsInfix (G2.encode_varint 1700000000 ++ 0x10 :: G2.auth_txid) (ps.getD 6 []) :=
  C10_build_auth_packets 1700000000 (by norm_num)

/-- C2: the table-driven `calc_crc32c` equals the reference bitwise
non-reflected (MSB-first) CRC-32C with polynomial `0x1EDC6F41` and initial
value 0 on every byte sequence, and every one of the 256 entries of
`CRC32C_TABLE` equals the table entry derived from that polynomial. -/
theorem C2_calc_crc32c_eq_ref :
    (∀ data : List Nat, (∀ b ∈ data, b < 256) →
      G2.calc_crc32c data = G2.crc32c_ref data) ∧
    G2.CRC32C_TABLE =
      (List.range 256).map (fun i => G2.crc32cBits 8 (i <<< 24)) := by
  constructor
  · intro data hall
    unfold G2.calc_crc32c G2.crc32c_ref
    exact G2.crc32c_fold_eq data 0 (by norm_num) hall
  · exact G2.crc32c_table_eq

theorem C2_calc_crc32c_eq_ref_witness :
    G2.calc_crc32c [0x61, 0x62, 0x63] = G2.crc32c_ref [0x61, 0x62, 0x63] :=
  C2_calc_crc32c_eq_ref.1 [0x61, 0x62, 0x63] (by decide)

/-- C9: for every byte string, `calc_file_check_fields` returns exactly
`(len(data) * 256, (crc32c(data) << 8) mod 2^32, crc32c(data) >> 24)`;
the source's trailing `& 0xFF` on the third component is the identity
because the running CRC fits in 32 bits. -/
theorem C9_calc_file_check_fields (data : List Nat) :
    G2.calc_file_check_fields data =
      (data.length * 256, (G2.calc_crc32c data <<< 8) % 2 ^ 32,
        G2.calc_crc32c data >>> 24) := by
  unfold G2.calc_file_check_fields
  refine congrArg (fun p => (data.length * 256, p)) ?_
  have h1 : (G2.calc_crc32c data <<< 8) &&& 0xFFFFFFFF =
      (G2.calc_crc32c data <<< 8) % 2 ^ 32 := by
    rw [show (0xFFFFFFFF : Nat) = 2 ^ 32 - 1 by norm_num,
      Nat.and_pow_two_sub_one_eq_mod]
  have h2 : (G2.calc_crc32c data >>> 24) &&& 0xFF = G2.calc_crc32c data >>> 24 := by
    rw [show (0xFF : Nat) = 2 ^ 8 - 1 by norm_num]
    exact Nat.and_pow_two_sub_one_of_lt_two_pow
      (G2.shiftRight24_lt (G2.calc_crc32c_lt data))
  rw [h1, h2]

/-- C3: the byte-budget loop of `format_text` does NOT terminate on every
input: on the page produced for empty input text (ten lines of at most one
character, 21 rendered bytes) with `max_text_bytes = 5`, the truncation
pass leaves the page unchanged (no line is longer than one character), the
rendered size stays above the budget, and the `while` loop therefore runs
forever — the source contains no `TextBudgetExceeded` (or any other)
signal.  Formally: the loop, with any amount of fuel, is still running. -/
theorem C3_format_text_budget_loop_diverges :
    ∀ fuel, G2.shrinkLoop fuel 5 ((G2.format_text_lines [] 25 10).headD []) = none := by
  have hpage : (G2.format_text_lines [] 25 10).headD [] =
      ([] : List Char) :: List.replicate 9 [' '] := by decide
  rw [hpage]
  exact G2.shrinkLoop_stuck (by decide) (by decide)

/-- C7 counterexample: with the default width 25, a single 30-character word
produces a 30-character line, so not every line is at most `chars_per_line`
characters.  The claim as stated is false on the code. -/
theorem C7_counterexample :
    ¬ (∀ page ∈ G2.format_text_lines (List.replicate 30 'a') 25 10,
        ∀ l ∈ page, l.length ≤ 25) := by
  decide

/-- C7 (amended): for positive `chars_per_line` and `lines_per_page`, every
line of every page either has at most `chars_per_line` characters or
consists of one single whitespace-free word of the escape-processed input
that is longer than `chars_per_line` — overlong words are kept whole and
are the only lines exceeding the width. -/
theorem C7_line_width (text : List Char) (cpl lpp : Nat)
    (hcpl : 0 < cpl) (hlpp : 0 < lpp) :
    ∀ page ∈ G2.format_text_lines text cpl lpp, ∀ l ∈ page,
      l.length ≤ cpl ∨
        (cpl < l.length ∧ G2.pyWords l = [l] ∧
          l ∈ G2.pyWords (G2.pyReplaceEsc text)) := by
  intro page hp l hl
  rcases G2.format_text_lines_mem text cpl lpp page hp l hl with h | h
  · rcases (G2.wrapText_result cpl (G2.pyReplaceEsc text)).2.1 l h with hOK | hnil
    · obtain ⟨ws, hne, hgood, hl2, hdisj⟩ := hOK
      rcases hdisj with hlen | ⟨w0, hws⟩
      · exact Or.inl hlen
      · subst hws
        have hl0 : l = w0 := hl2
        by_cases hle : l.length ≤ cpl
        · exact Or.inl hle
        · refine Or.inr ⟨by omega, ?_, ?_⟩
          · have hg := hgood w0 (List.mem_singleton_self w0)
            rw [hl0, G2.pyWords_word hg.1 hg.2]
          · have hwl : l ∈ G2.pyWords l := by
              have hg := hgood w0 (List.mem_singleton_self w0)
              rw [hl0, G2.pyWords_word hg.1 hg.2]
              exact List.mem_singleton_self _
            have hmem : l ∈ ((G2.wrapText cpl
                (G2.pyReplaceEsc text)).map G2.pyWords).flatten := by
              rw [List.mem_flatten]
              exact ⟨G2.pyWords l, List.mem_map_of_mem G2.pyWords h, hwl⟩
            rwa [(G2.wrapText_result cpl (G2.pyReplaceEsc text)).1] at hmem
    · subst hnil
      exact Or.inl (by simpa using hcpl.le)
  · subst h
    exact Or.inl (by simpa using hcpl)

theorem C7_line_width_witness :
    (List.replicate 30 'a' : List Char).length ≤ 25 ∨
      (25 < (List.replicate 30 'a' : List Char).length ∧
        G2.pyWords (List.replicate 30 'a') = [List.replicate 30 'a'] ∧
        List.replicate 30 'a' ∈
          G2.pyWords (G2.pyReplaceEsc (List.replicate 30 'a'))) :=
  C7_line_width (List.replicate 30 'a') 25 10 (by decide) (by decide)
    ((G2.format_text_lines (List.replicate 30 'a') 25 10).headD [])
    (by decide) (List.replicate 30 'a') (by decide)

/-- C8 counterexample: `format_text` first replaces the two-character
escape `\\n` by a newline, so the single whitespace-separated word
`a\\nb` of the raw input is split into the words `a` and `b`: the word
sequence of the raw input is not recovered. -/
theorem C8_counterexample :
    ¬ (G2.pyWords ((G2.format_text ['a', '\\', 'n', 'b'] 25 10).flatten) =
        G2.pyWords ['a', '\\', 'n', 'b']) := by
  decide

/-- C8 (amended): for positive `lines_per_page`, concatenating the pages
returned by `format_text` recovers exactly the whitespace-separated words
of the input AFTER the escaped-newline replacement (`"\\n"` to newline), in
original order — no word lost, duplicated, reordered or split — and every
word longer than `chars_per_line` is kept whole as its own line. -/
theorem C8_words_preserved (text : List Char) (cpl lpp : Nat)
    (hlpp : 0 < lpp) :
    G2.pyWords ((G2.format_text text cpl lpp).flatten) =
      G2.pyWords (G2.pyReplaceEsc text) ∧
    (∀ page ∈ G2.format_text_lines text cpl lpp, ∀ l ∈ page,
      ∀ w ∈ G2.pyWords l, cpl < w.length → l = w) := by
  refine ⟨G2.format_text_words text cpl lpp hlpp, ?_⟩
  intro page hp l hl w hw hlong
  rcases G2.format_text_lines_mem text cpl lpp page hp l hl with h | h
  · rcases (G2.wrapText_result cpl (G2.pyReplaceEsc text)).2.1 l h with hOK | hnil
    · obtain ⟨ws, hne, hgood, hl2, hdisj⟩ := hOK
      have hwords : G2.pyWords l = ws := by
        rw [hl2]
        exact G2.pyWords_pyJoin_space hgood
      rcases hdisj with hlen | ⟨w0, hws⟩
      · have h1 := G2.mem_pyWords_length_le hw
        omega
      · subst hws
        rw [hwords] at hw
        simp only [List.mem_singleton] at hw
        subst hw
        exact hl2
    · subst hnil
      rw [show G2.pyWords [] = [] from rfl] at hw
      exact absurd hw (by simp)
  · subst h
    rw [G2.pyWords_single_space] at hw
    exact absurd hw (by simp)

theorem C8_words_preserved_witness :
    G2.pyWords ((G2.format_text ("hello  wrapped world".toList) 25 10).flatten) =
      G2.pyWords (G2.pyReplaceEsc ("hello  wrapped world".toList)) :=
  (C8_words_preserved ("hello  wrapped world".toList) 25 10 (by decide)).1

/-- C5: with budget 234, default app id and display name, a 15-character
date and a current-era (10-digit) timestamp:
(a) for every plain-ASCII title and subtitle totalling at most the
available budget (35 characters) and every plain-ASCII message of length
1000, `build_notification_json` truncates only the message — title and
subtitle appear unchanged — and the serialized payload is at most 234
bytes; (b) for a plain-ASCII title that alone is longer than 234, the
returned title is the truncation of the title with a 3-character ellipsis
(32 kept characters plus `...`), subtitle and message are dropped, and the
serialized result is at most 234 bytes. -/
theorem C5_notification_truncation (ts : Nat) (date : List Char)
    (hts1 : 10 ^ 9 ≤ ts) (hts2 : ts < 10 ^ 10)
    (hdlen : date.length = 15) (hdpl : ∀ c ∈ date, G2.plainChar c) :
    (∀ title subtitle message : List Char,
      (∀ c ∈ title, G2.plainChar c) → (∀ c ∈ subtitle, G2.plainChar c) →
      (∀ c ∈ message, G2.plainChar c) →
      title.length + subtitle.length ≤ 35 → message.length = 1000 →
      ∃ m2 : List Char,
        G2.build_notification_json ts date title subtitle message
            (("com.google.android.gm").toList) (("Gmail").toList) 234 =
          (G2.make_json ts date (("com.google.android.gm").toList)
            (("Gmail").toList) title subtitle m2, true) ∧
        m2.length < message.length ∧
        G2.utf8Len (G2.make_json ts date (("com.google.android.gm").toList)
          (("Gmail").toList) title subtitle m2) ≤ 234) ∧
    (∀ title subtitle message : List Char,
      (∀ c ∈ title, G2.plainChar c) → (∀ c ∈ subtitle, G2.plainChar c) →
      (∀ c ∈ message, G2.plainChar c) →
      234 < title.length →
      ∃ t2 : List Char,
        G2.build_notification_json ts date title subtitle message
            (("com.google.android.gm").toList) (("Gmail").toList) 234 =
          (G2.make_json ts date (("com.google.android.gm").toList)
            (("Gmail").toList) t2 [] [], true) ∧
        t2 = title.take 32 ++ (("...").toList) ∧
        G2.utf8Len (G2.make_json ts date (("com.google.android.gm").toList)
          (("Gmail").toList) t2 [] []) ≤ 234) := by
  have hO : G2.utf8Len (G2.make_json ts date (("com.google.android.gm").toList)
      (("Gmail").toList) [] [] []) = 199 := by
    rw [G2.make_json_len_default ts date [] [] [] hts1 hts2 hdlen hdpl
      (by simp) (by simp) (by simp)]
    simp
  constructor
  · intro title subtitle message ht hs hm hsum hmlen
    have hfull : G2.utf8Len (G2.make_json ts date
        (("com.google.android.gm").toList) (("Gmail").toList)
        title subtitle message) =
        199 + title.length + subtitle.length + message.length :=
      G2.make_json_len_default ts date title subtitle message hts1 hts2
        hdlen hdpl ht hs hm
    unfold G2.build_notification_json
    rw [if_neg (by rw [hfull]; omega)]
    simp only [hO]
    rw [if_neg (by push_cast; omega)]
    set X : Int := ((234 : Nat) : Int) - ((199 : Nat) : Int) -
      (title.length : Int) - (subtitle.length : Int) with hX
    have hX0 : 0 ≤ X := by rw [hX]; push_cast; omega
    have hX35 : X ≤ 35 := by rw [hX]; push_cast; omega
    have hmaxX : max 0 X = X := max_eq_right hX0
    have hXlt : X < (message.length : Int) := by rw [hX, hmlen]; push_cast; omega
    have hlen := @G2.truncate_field_len message (max 0 X) (le_max_left 0 X)
      (by rw [hmaxX]; exact hXlt)
    have hplain := G2.truncate_field_plain hm (le_max_left 0 X)
      (by rw [hmaxX]; exact hXlt)
    have hlen2 : ((G2.truncate_field message (max 0 X)).length : Int) = X :=
      hlen.trans hmaxX
    refine ⟨G2.truncate_field message (max 0 X), rfl, ?_, ?_⟩
    · omega
    · rw [G2.make_json_len_default ts date title subtitle _ hts1 hts2
        hdlen hdpl ht hs hplain]
      omega
  · intro title subtitle message ht hs hm htlen
    have hfull : G2.utf8Len (G2.make_json ts date
        (("com.google.android.gm").toList) (("Gmail").toList)
        title subtitle message) =
        199 + title.length + subtitle.length + message.length :=
      G2.make_json_len_default ts date title subtitle message hts1 hts2
        hdlen hdpl ht hs hm
    unfold G2.build_notification_json
    rw [if_neg (by rw [hfull]; omega)]
    simp only [hO]
    rw [if_pos (by push_cast; omega), if_pos (by push_cast; omega)]
    set N : Int := ((234 : Nat) : Int) - ((199 : Nat) : Int) with hN
    have hN0 : 0 ≤ N := by rw [hN]; norm_num
    have hN3 : 3 < N := by rw [hN]; norm_num
    have hNlt : N < (title.length : Int) := by rw [hN]; push_cast; omega
    have hsmall := G2.truncate_field_small hN0 hN3 hNlt
    have hplain := G2.truncate_field_plain ht hN0 hNlt
    have htoNat : (N - 3).toNat = 32 := by rw [hN]; decide
    refine ⟨G2.truncate_field title N, rfl, ?_, ?_⟩
    · rw [hsmall.1, htoNat]
    · rw [G2.make_json_len_default ts date _ [] [] hts1 hts2
        hdlen hdpl hplain (by simp) (by simp)]
      have := hsmall.2
      simp only [List.length_nil]
      omega

theorem C5_notification_truncation_witness :
    ∃ m2 : List Char,
      G2.build_notification_json 1700000000 (("20261012T120000").toList)
          (("Hi").toList) (("Yo").toList) (List.replicate 1000 'a')
          (("com.google.android.gm").toList) (("Gmail").toList) 234 =
        (G2.make_json 1700000000 (("20261012T120000").toList)
          (("com.google.android.gm").toList) (("Gmail").toList)
          (("Hi").toList) (("Yo").toList) m2, true) ∧
      m2.length < (List.replicate 1000 'a').length ∧
      G2.utf8Len (G2.make_json 1700000000 (("20261012T120000").toList)
        (("com.google.android.gm").toList) (("Gmail").toList)
        (("Hi").toList) (("Yo").toList) m2) ≤ 234 :=
  (C5_notification_truncation 1700000000 (("20261012T120000").toList)
      (by norm_num) (by norm_num) (by decide) (by decide)).1
    (("Hi").toList) (("Yo").toList) (List.replicate 1000 'a')
    (by decide) (by decide)
    (fun c hc => by rw [List.eq_of_mem_replicate hc]; decide)
    (by decide) (by simp)
